import Mathlib

/-!
Verification of the course auto-registration and allocation engine
(scoring engine, waitlist store, allocation engine, registration service).

The Python sources are shallowly embedded:
* floating-point scores are modelled as rationals wherever the program only
  adds, compares and divides them, and as reals in the scoring engine where
  the exponential time decay is involved;
* Python dicts are modelled as association lists in insertion order
  (Python 3.7+ dicts preserve insertion order), and Python sets of result
  rows as lists carrying the owning key;
* datetimes are modelled as rational timestamps measured in seconds.

The entity dataclasses live in a module that is not part of this snapshot
(only the core and service modules are); their fields and derived methods
are modelled from the specification, and each such definition says so.
-/

namespace Registration

/-- Modelled from the spec: the entity module defining `Student` is not in
the snapshot.  Fields per the data model section: id, gpa in [0,4], year,
interest tags, completed course ids. -/
structure Student where
  student_id : String
  gpa : ℚ
  year : ℤ
  interests : List String
  completed_courses : List String
  deriving DecidableEq, Repr

/-- Modelled from the spec: `CourseBookingState` enum of the entity module. -/
inductive CourseBookingState where
  | BOOKING_CLOSED
  | BOOKING_OPEN
  | COURSE_STARTED
  | COURSE_COMPLETED
  deriving DecidableEq, Repr

/-- Modelled from the spec: the entity module defining `Course` is not in the
snapshot.  `current_enrollment` is an integer counter (Python ints can go
negative on decrement). -/
structure Course where
  course_id : String
  capacity : ℕ
  current_enrollment : ℤ
  prerequisites : List String
  tags : List String
  min_gpa : ℚ
  preferred_years : List ℤ
  booking_state : CourseBookingState
  deriving DecidableEq, Repr

/-- Modelled from the spec: derived field `available_seats = capacity −
current_enrollment`. -/
def Course.available_seats (c : Course) : ℤ :=
  (c.capacity : ℤ) - c.current_enrollment

/-- Modelled from the spec: derived field `has_vacancy = available_seats > 0`. -/
def Course.has_vacancy (c : Course) : Bool :=
  decide (0 < c.available_seats)

/-- Modelled from the spec: ordered per-student preference list. -/
structure StudentCoursePreferences where
  student_id : String
  course_ids : List String
  deriving DecidableEq, Repr

/-- Modelled from the spec: `get_priority(course_id)` returns the 1-based rank
of the course in the preference list, or the sentinel 999 if not listed. -/
def StudentCoursePreferences.get_priority
    (p : StudentCoursePreferences) (course_id : String) : ℕ :=
  match p.course_ids.findIdx? (fun c => c == course_id) with
  | some i => i + 1
  | none => 999

/-- `RegistrationStatus` enum (models/entities, per the spec). -/
inductive RegistrationStatus where
  | REGISTERED
  | WAITLISTED
  | REJECTED
  | DROPPED
  deriving DecidableEq, Repr

/-- The human-readable `message` strings produced by the allocation engine,
modelled as a tagged type so that the values interpolated into the Python
f-strings are carried structurally. -/
inductive Message where
  /-- "Prerequisites not met" -/
  | prereqNotMet
  /-- "GPA {gpa} below minimum {min_gpa}" (carries both interpolated values) -/
  | gpaBelowMinimum (gpa min_gpa : ℚ)
  /-- "Added to waitlist. Booking not yet open." -/
  | waitlistBookingClosed
  /-- "Application received. Allocation will be processed in next batch." -/
  | waitlistOpenVacancy
  /-- "Course full. Added to waitlist." -/
  | waitlistOpenFull
  /-- "Added to waitlist for late enrollment." -/
  | waitlistLate
  /-- "Course full and started. Added to waitlist for dropout fill." -/
  | waitlistLateFull
  /-- "Course registration is closed." -/
  | registrationClosed
  /-- "Course capacity reached. Remaining on waitlist." -/
  | capacityReached
  /-- "Allocated to course (priority #{p})" (carries the priority) -/
  | allocated (priority : ℕ)
  /-- "Auto-registered from waitlist!" -/
  | autoRegistered
  /-- "Student not found" -/
  | studentNotFound
  /-- "Course not found" -/
  | courseNotFound
  deriving DecidableEq, Repr

/-- `AllocationResult` (models/entities, per the spec): outcome record with
success flag, status, message, optional 1-based waitlist position and
optional score. -/
structure AllocationResult where
  student_id : String
  course_id : String
  success : Bool
  status : RegistrationStatus
  message : Message
  waitlist_position : Option ℕ := none
  score : Option ℚ := none
  deriving DecidableEq, Repr

/-! ## Waitlist store (core/waitlist.py)

One course's Redis sorted set is a `dict[str, float]`; we model it as the
association list of (member, score) pairs in dict insertion order (re-adding
an existing member overwrites the score in place, keeping its position, as a
Python dict does). -/

/-- One sorted-set: members with scores, in insertion order. -/
abbrev WL := List (String × ℚ)

/-- `InMemoryRedis.zadd` restricted to a single member: insert or overwrite. -/
def zadd (l : WL) (member : String) (score : ℚ) : WL :=
  if l.any (fun e => e.1 == member) then
    l.map (fun e => if e.1 == member then (member, score) else e)
  else
    l ++ [(member, score)]

/-- `InMemoryRedis.zrem` for a single member. -/
def zrem (l : WL) (member : String) : WL :=
  l.filter (fun e => !(e.1 == member))

/-- `InMemoryRedis.zscore`. -/
def zscore (l : WL) (member : String) : Option ℚ :=
  (l.find? (fun e => e.1 == member)).map (fun e => e.2)

/-- The comparison used by `sorted(items, key=lambda x: x[1], reverse=True)`:
a stable sort that puts higher scores first and keeps insertion order among
equal scores.  `descLE a b` says a may be placed before b. -/
def descLE (a b : String × ℚ) : Bool := decide (b.2 ≤ a.2)

/-- The descending, stably sorted view of a sorted set, as produced by
`sorted(self._sorted_sets[key].items(), key=lambda x: x[1], reverse=True)`. -/
def sortedDesc (l : WL) : WL := l.mergeSort descLE

/-- `InMemoryRedis.zrevrank`: 0-indexed rank in the descending order, `none`
if the member is absent. -/
def zrevrank (l : WL) (member : String) : Option ℕ :=
  if l.any (fun e => e.1 == member) then
    some ((sortedDesc l).findIdx (fun e => e.1 == member))
  else
    none

/-- `InMemoryRedis.zrevrange key 0 -1 withscores=True`: all members with
scores, descending. -/
def zrevrangeAll (l : WL) : WL := sortedDesc l

/-- The whole waitlist store: course id to sorted set, created lazily. -/
abbrev WaitlistStore := List (String × WL)

/-- Lookup of a course's sorted set; unknown courses read as empty. -/
def getWL (s : WaitlistStore) (course_id : String) : WL :=
  ((s.find? (fun e => e.1 == course_id)).map (fun e => e.2)).getD []

/-- Write back a course's sorted set (creating the key lazily). -/
def setWL (s : WaitlistStore) (course_id : String) (l : WL) : WaitlistStore :=
  if s.any (fun e => e.1 == course_id) then
    s.map (fun e => if e.1 == course_id then (course_id, l) else e)
  else
    s ++ [(course_id, l)]

/-- `WaitlistManager.add_to_waitlist`: zadd of the student with the
application's composite score. -/
def add_to_waitlist (s : WaitlistStore) (course_id student_id : String)
    (score : ℚ) : WaitlistStore :=
  setWL s course_id (zadd (getWL s course_id) student_id score)

/-- `WaitlistManager.remove_from_waitlist`. -/
def remove_from_waitlist (s : WaitlistStore) (course_id student_id : String) :
    WaitlistStore :=
  setWL s course_id (zrem (getWL s course_id) student_id)

/-- `WaitlistManager.get_waitlist_position`: 1-indexed position via zrevrank. -/
def get_waitlist_position (s : WaitlistStore) (course_id student_id : String) :
    Option ℕ :=
  (zrevrank (getWL s course_id) student_id).map (fun r => r + 1)

/-- `WaitlistManager.get_all_waitlisted`: all (student, score) pairs,
highest score first. -/
def get_all_waitlisted (s : WaitlistStore) (course_id : String) : WL :=
  zrevrangeAll (getWL s course_id)

/-- `WaitlistManager.pop_top_candidate`: the top entry and the store with
that entry removed, or `none` on an empty waitlist. -/
def pop_top_candidate (s : WaitlistStore) (course_id : String) :
    Option ((String × ℚ) × WaitlistStore) :=
  match zrevrangeAll (getWL s course_id) with
  | [] => none
  | top :: _ =>
      some (top, setWL s course_id (zrem (getWL s course_id) top.1))

/-! ## Scoring engine (core/scoring.py)

Weights and the four algebraic component scores are exact rational
arithmetic; the time component uses the real exponential, so the composite
is real-valued. -/

/-- `ScoringWeights` dataclass fields. -/
structure ScoringWeights where
  gpa_weight : ℚ
  interest_weight : ℚ
  time_weight : ℚ
  year_fit_weight : ℚ
  prerequisite_weight : ℚ
  deriving DecidableEq, Repr

/-- The sum computed in `ScoringWeights.__post_init__`. -/
def ScoringWeights.total (w : ScoringWeights) : ℚ :=
  w.gpa_weight + w.interest_weight + w.time_weight +
    w.year_fit_weight + w.prerequisite_weight

/-- `ScoringWeights` construction: `__post_init__` raises `ValueError`
unless `0.99 <= total <= 1.01`; modelled as `Except`. -/
def mkScoringWeights (g i t y p : ℚ) : Except String ScoringWeights :=
  let w : ScoringWeights := ⟨g, i, t, y, p⟩
  if 99/100 ≤ w.total ∧ w.total ≤ 101/100 then .ok w
  else .error "Weights must sum to 1.0"

/-- `ScoringEngine` constructor state: weights, decay half-life in hours,
maximum time bonus, and the `course_id → booking_opens_at` map (timestamps
in seconds). -/
structure ScoringEngine where
  weights : ScoringWeights
  time_decay_hours : ℚ
  max_time_bonus : ℚ
  booking_open_times : List (String × ℚ)

/-- The lowercased tag set built by `set(tag.lower() for tag in l)`. -/
def lowerSet (l : List String) : Finset String :=
  (l.map String.toLower).toFinset

/-- `ScoringEngine._compute_gpa_score`. -/
def compute_gpa_score (student : Student) (course : Course) : ℚ :=
  if student.gpa < course.min_gpa then 0
  else
    let base_score := student.gpa / 4
    let excess := student.gpa - course.min_gpa
    let bonus := min (1/10) (excess * (5/100))
    min 1 (base_score + bonus)

/-- `ScoringEngine._compute_interest_score`: Jaccard similarity of the
lowercased tag sets, neutral 0.5 when either input list is empty. -/
def compute_interest_score (student : Student) (course : Course) : ℚ :=
  if student.interests = [] ∨ course.tags = [] then 1/2
  else
    let student_interests := lowerSet student.interests
    let course_tags := lowerSet course.tags
    let intersection := (student_interests ∩ course_tags).card
    let union := (student_interests ∪ course_tags).card
    if union = 0 then 1/2
    else (intersection : ℚ) / (union : ℚ)

/-- `ScoringEngine._compute_time_score`: exponential decay from the course's
booking-open time; an unknown open time counts as "just opened". -/
noncomputable def compute_time_score (e : ScoringEngine) (course_id : String)
    (applied_at : ℚ) : ℝ :=
  let booking_open : ℚ :=
    ((e.booking_open_times.find? (fun x => x.1 == course_id)).map
      (fun x => x.2)).getD applied_at
  let hours_since_open : ℚ := max 0 ((applied_at - booking_open) / 3600)
  let decay_rate : ℝ := Real.log 2 / (e.time_decay_hours : ℝ)
  (e.max_time_bonus : ℝ) * Real.exp (-decay_rate * (hours_since_open : ℝ))

/-- `ScoringEngine._compute_year_score`. -/
def compute_year_score (student : Student) (course : Course) : ℚ :=
  if student.year ∈ course.preferred_years then 1
  else if course.preferred_years.any
      (fun preferred => (student.year - preferred).natAbs == 1) then 1/2
  else 1/4

/-- `ScoringEngine._compute_prerequisite_score`. -/
def compute_prerequisite_score (student : Student) (course : Course) : ℚ :=
  if course.prerequisites = [] then 1
  else
    let completed := student.completed_courses.toFinset
    let required := course.prerequisites.toFinset
    ((completed ∩ required).card : ℚ) / (required.card : ℚ)

/-- The scored `CourseApplication` record as `compute_score` constructs it
(the source passes exactly these fields to the constructor; in particular it
does not store the prerequisite component). -/
structure CourseApplication where
  student_id : String
  course_id : String
  priority_rank : ℕ
  applied_at : ℚ
  gpa_score : ℚ
  interest_score : ℚ
  time_score : ℝ
  year_score : ℚ
  composite_score : ℝ

/-- `ScoringEngine.compute_score`: the five components and their weighted
sum. -/
noncomputable def compute_score (e : ScoringEngine) (student : Student)
    (course : Course) (applied_at : ℚ) (student_priority : ℕ) :
    CourseApplication :=
  let gpa_score := compute_gpa_score student course
  let interest_score := compute_interest_score student course
  let time_score := compute_time_score e course.course_id applied_at
  let year_score := compute_year_score student course
  let prereq_score := compute_prerequisite_score student course
  let composite_score : ℝ :=
    (e.weights.gpa_weight : ℝ) * (gpa_score : ℝ) +
    (e.weights.interest_weight : ℝ) * (interest_score : ℝ) +
    (e.weights.time_weight : ℝ) * time_score +
    (e.weights.year_fit_weight : ℝ) * (year_score : ℝ) +
    (e.weights.prerequisite_weight : ℝ) * (prereq_score : ℝ)
  { student_id := student.student_id
    course_id := course.course_id
    priority_rank := student_priority
    applied_at := applied_at
    gpa_score := gpa_score
    interest_score := interest_score
    time_score := time_score
    year_score := year_score
    composite_score := composite_score }

/-! ## Allocation engine (core/allocation.py)

The engine's numeric composite score is treated as the opaque float that
`apply_for_course` obtains from the scoring engine and passes along, so the
allocation layer is parametrised by a score function into ℚ; the scoring
formula itself is verified separately above. -/

/-- `AllocationStrategy` enum. -/
inductive AllocationStrategy where
  | GREEDY
  | STUDENT_OPTIMAL
  | COURSE_OPTIMAL
  | BALANCED
  deriving DecidableEq, Repr

/-- `BatchAllocationConfig` dataclass (no validation in source). -/
structure BatchAllocationConfig where
  strategy : AllocationStrategy := .BALANCED
  max_courses_per_student : ℕ := 5
  allow_oversubscription : ℚ := 0
  prioritize_student_top_choices : Bool := true
  deriving DecidableEq, Repr

/-- Association-list lookup for a dict keyed by strings. -/
def lookupPref (prefs : List (String × StudentCoursePreferences))
    (student_id : String) : Option StudentCoursePreferences :=
  (prefs.find? (fun e => e.1 == student_id)).map (fun e => e.2)

/-- A `dict[str, set[str]]` read with `.get(k, set())`. -/
def lookupMem (m : List (String × List String)) (k : String) : List String :=
  ((m.find? (fun e => e.1 == k)).map (fun e => e.2)).getD []

/-- `defaultdict(set)[k].add(v)`. -/
def addMem (m : List (String × List String)) (k v : String) :
    List (String × List String) :=
  if m.any (fun e => e.1 == k) then
    m.map (fun e =>
      if e.1 == k then (k, if e.2.contains v then e.2 else e.2 ++ [v]) else e)
  else
    m ++ [(k, [v])]

/-- `d[k].discard(v)` on a dict of sets. -/
def removeMem (m : List (String × List String)) (k v : String) :
    List (String × List String) :=
  m.map (fun e => if e.1 == k then (k, e.2.filter (fun x => !(x == v))) else e)

/-- The live `current_enrollment` counters, read through the course objects
(`course.current_enrollment`); keyed by course id. -/
def lookupEnr (m : List (String × ℤ)) (k : String) : ℤ :=
  ((m.find? (fun e => e.1 == k)).map (fun e => e.2)).getD 0

/-- `course.current_enrollment += 1` on the shared course object. -/
def bumpEnr (m : List (String × ℤ)) (k : String) : List (String × ℤ) :=
  if m.any (fun e => e.1 == k) then
    m.map (fun e => if e.1 == k then (k, e.2 + 1) else e)
  else
    m ++ [(k, 1)]

/-- `defaultdict(int)` read. -/
def lookupFill (m : List (String × ℕ)) (k : String) : ℕ :=
  ((m.find? (fun e => e.1 == k)).map (fun e => e.2)).getD 0

/-- `course_fills[course_id] += 1`. -/
def bumpFill (m : List (String × ℕ)) (k : String) : List (String × ℕ) :=
  if m.any (fun e => e.1 == k) then
    m.map (fun e => if e.1 == k then (k, e.2 + 1) else e)
  else
    m ++ [(k, 1)]

/-- `AllocationEngine._check_prerequisites`. -/
def check_prerequisites (student : Student) (course : Course) : Bool :=
  if course.prerequisites = [] then true
  else decide
    (course.prerequisites.toFinset ⊆ student.completed_courses.toFinset)

/-- The scored application record built by `apply_for_course` via the
scoring engine, with the composite treated as an opaque rational. -/
structure AppRecord where
  student_id : String
  course_id : String
  priority_rank : ℕ
  applied_at : ℚ
  composite_score : ℚ
  deriving DecidableEq, Repr

/-- `AllocationEngine.apply_for_course`: gating checks then routing by
course state.  Returns the scored application, the result, and the updated
waitlist store (the only state this method mutates). -/
def apply_for_course (scoreFn : Student → Course → ℚ → ℕ → ℚ)
    (store : WaitlistStore) (student : Student) (course : Course)
    (preferences : StudentCoursePreferences) (applied_at : ℚ) :
    AppRecord × AllocationResult × WaitlistStore :=
  let priority_rank := preferences.get_priority course.course_id
  let application : AppRecord :=
    ⟨student.student_id, course.course_id, priority_rank, applied_at,
      scoreFn student course applied_at priority_rank⟩
  let score := application.composite_score
  if ¬ check_prerequisites student course then
    (application,
     ⟨student.student_id, course.course_id, false, .REJECTED, .prereqNotMet,
       none, some score⟩, store)
  else if student.gpa < course.min_gpa then
    (application,
     ⟨student.student_id, course.course_id, false, .REJECTED,
       .gpaBelowMinimum student.gpa course.min_gpa, none, some score⟩, store)
  else
    match course.booking_state with
    | .BOOKING_CLOSED =>
        let store2 := add_to_waitlist store course.course_id
          student.student_id score
        let position := get_waitlist_position store2 course.course_id
          student.student_id
        (application,
         ⟨student.student_id, course.course_id, true, .WAITLISTED,
           .waitlistBookingClosed, position, some score⟩, store2)
    | .BOOKING_OPEN =>
        let store2 := add_to_waitlist store course.course_id
          student.student_id score
        let position := get_waitlist_position store2 course.course_id
          student.student_id
        if course.has_vacancy then
          (application,
           ⟨student.student_id, course.course_id, true, .WAITLISTED,
             .waitlistOpenVacancy, position, some score⟩, store2)
        else
          (application,
           ⟨student.student_id, course.course_id, true, .WAITLISTED,
             .waitlistOpenFull, position, some score⟩, store2)
    | .COURSE_STARTED =>
        let store2 := add_to_waitlist store course.course_id
          student.student_id score
        let position := get_waitlist_position store2 course.course_id
          student.student_id
        if course.has_vacancy then
          (application,
           ⟨student.student_id, course.course_id, true, .WAITLISTED,
             .waitlistLate, position, some score⟩, store2)
        else
          (application,
           ⟨student.student_id, course.course_id, true, .WAITLISTED,
             .waitlistLateFull, position, some score⟩, store2)
    | .COURSE_COMPLETED =>
        (application,
         ⟨student.student_id, course.course_id, false, .REJECTED,
           .registrationClosed, none, some score⟩, store)

/-! ### Batch allocation -/

/-- `int(course.capacity * (1 + allow_oversubscription))`; Python `int`
truncation agrees with the floor for the non-negative products that arise
with `allow_oversubscription ≥ 0`.  Written as num/den integer division,
which is exactly the rational floor (see `effectiveCap_eq_floor`). -/
def effectiveCap (capacity : ℕ) (oversub : ℚ) : ℤ :=
  let q := (capacity : ℚ) * (1 + oversub)
  q.num / (q.den : ℤ)

/-- `{c.course_id: c for c in courses}.get(cid)` (unique course ids are
assumed where the choice matters; the service registry keys courses by id). -/
def findCourse (courses : List Course) (course_id : String) : Option Course :=
  courses.find? (fun c => c.course_id == course_id)

/-- One element of `all_applications`. -/
structure AppTuple where
  student_id : String
  course_id : String
  score : ℚ
  priority : ℕ
  deriving DecidableEq, Repr

/-- The ordering key `(-score, priority)` of the balanced batch sort:
`batchLE a b` holds when a may be placed before b (higher score first,
ties by lower priority rank, stable). -/
def batchLE (a b : AppTuple) : Bool :=
  decide (b.score < a.score) ||
    (decide (a.score = b.score) && decide (a.priority ≤ b.priority))

/-- The batch-shared mutable state: live enrollment counters of the course
objects, the engine's two enrollment maps, the waitlist store, this batch's
`batch_allocations` and `course_fills`, and the emitted results in order
(the Python dict groups them by student; each row carries its student id). -/
structure BatchState where
  enrollment : List (String × ℤ)
  enrollments : List (String × List String)
  student_courses : List (String × List String)
  store : WaitlistStore
  batch_allocations : List String
  course_fills : List (String × ℕ)
  results : List AllocationResult
  deriving DecidableEq, Repr

/-- The state a batch starts from: enrollment counters read off the course
objects, engine maps and store as given, empty batch bookkeeping. -/
def initialBatchState (courses : List Course)
    (enrollments student_courses : List (String × List String))
    (store : WaitlistStore) : BatchState :=
  ⟨courses.map (fun c => (c.course_id, c.current_enrollment)),
   enrollments, student_courses, store, [], [], []⟩

/-- Phase 1 of `_balanced_allocation`: collect `(student_id, course_id,
score, priority)` tuples from every eligible course's full waitlist. -/
def gatherApplications (courses : List Course)
    (prefs : List (String × StudentCoursePreferences))
    (store : WaitlistStore) : List AppTuple :=
  courses.foldl (fun acc c =>
    if c.booking_state ∈ [CourseBookingState.BOOKING_OPEN,
        CourseBookingState.BOOKING_CLOSED] then
      acc ++ (get_all_waitlisted store c.course_id).map (fun e =>
        ⟨e.1, c.course_id, e.2,
          match lookupPref prefs e.1 with
          | some p => p.get_priority c.course_id
          | none => 999⟩)
    else acc) []

/-- The body of the processing loop of `_balanced_allocation` for one tuple. -/
def balancedStep (oversub : ℚ) (courses : List Course)
    (st : BatchState) (t : AppTuple) : BatchState :=
  if st.batch_allocations.contains t.student_id then st
  else
    match findCourse courses t.course_id with
    | none => st
    | some course =>
        let current_enrollment :=
          lookupEnr st.enrollment t.course_id +
            (lookupFill st.course_fills t.course_id : ℤ)
        let max_capacity := effectiveCap course.capacity oversub
        if max_capacity ≤ current_enrollment then
          let position := get_waitlist_position st.store t.course_id
            t.student_id
          { st with results := st.results ++
              [⟨t.student_id, t.course_id, false, .WAITLISTED,
                .capacityReached, position, some t.score⟩] }
        else
          { st with
            batch_allocations := st.batch_allocations ++ [t.student_id]
            course_fills := bumpFill st.course_fills t.course_id
            enrollments := addMem st.enrollments t.course_id t.student_id
            student_courses := addMem st.student_courses t.student_id
              t.course_id
            enrollment := bumpEnr st.enrollment t.course_id
            store := remove_from_waitlist st.store t.course_id t.student_id
            results := st.results ++
              [⟨t.student_id, t.course_id, true, .REGISTERED,
                .allocated t.priority, none, some t.score⟩] }

/-- `AllocationEngine._balanced_allocation` (also the body of
`_greedy_allocation`, which delegates to it). -/
def balanced_allocation (oversub : ℚ) (courses : List Course)
    (prefs : List (String × StudentCoursePreferences))
    (st : BatchState) : BatchState :=
  let all_applications := gatherApplications courses prefs st.store
  (all_applications.mergeSort batchLE).foldl (balancedStep oversub courses) st

/-! ### Student-optimal (deferred acceptance) allocation -/

/-- `student_scores[student_id].get(course_id, 0)`: the waitlist score when
present, else 0 (the `student_scores` dict is populated exactly from the
waitlists). -/
def soScore (store : WaitlistStore) (course_id student_id : String) : ℚ :=
  (zscore (getWL store course_id) student_id).getD 0

/-- `defaultdict(int)` proposal-index read. -/
def lookupIdx (m : List (String × ℕ)) (k : String) : ℕ :=
  ((m.find? (fun e => e.1 == k)).map (fun e => e.2)).getD 0

/-- `student_proposal_idx[student_id] = v`. -/
def setIdx (m : List (String × ℕ)) (k : String) (v : ℕ) :
    List (String × ℕ) :=
  if m.any (fun e => e.1 == k) then
    m.map (fun e => if e.1 == k then (k, v) else e)
  else
    m ++ [(k, v)]

/-- `tentative[course_id].append(entry)` on a `defaultdict(list)`. -/
def tentAppend (m : List (String × List (String × ℚ)))
    (k : String) (entry : String × ℚ) : List (String × List (String × ℚ)) :=
  if m.any (fun e => e.1 == k) then
    m.map (fun e => if e.1 == k then (k, e.2 ++ [entry]) else e)
  else
    m ++ [(k, [entry])]

/-- The loop state of `_student_optimal_allocation`: per-student proposal
indices, tentative acceptances per course, and the active students (the
Python set is modelled as a duplicate-free list; iteration order of a set is
determinised to list order). -/
structure SOState where
  proposal_idx : List (String × ℕ)
  tentative : List (String × List (String × ℚ))
  active : List String
  deriving DecidableEq, Repr

/-- One active student's proposal (first inner loop of a round); the second
accumulator component is the `new_active` set being built. -/
def proposalStep (prefs : List (String × StudentCoursePreferences))
    (courses : List Course) (store : WaitlistStore)
    (acc : SOState × List String) (student_id : String) :
    SOState × List String :=
  let (st, new_active) := acc
  match lookupPref prefs student_id with
  | none => (st, new_active)
  | some p =>
      let idx := lookupIdx st.proposal_idx student_id
      match p.course_ids[idx]? with
      | none => (st, new_active)
      | some course_id =>
          let st := { st with
            proposal_idx := setIdx st.proposal_idx student_id (idx + 1) }
          match findCourse courses course_id with
          | none => (st, new_active ++ [student_id])
          | some _ =>
              let score := soScore store course_id student_id
              ({ st with tentative :=
                  tentAppend st.tentative course_id (student_id, score) },
               new_active)

/-- One course's trim in the rejection phase: sort proposals by descending
score (stable), keep the best `max_capacity`, reject the rest. -/
def rejectionStep (oversub : ℚ) (courses : List Course)
    (acc : List (String × List (String × ℚ)) × List String)
    (e : String × List (String × ℚ)) :
    List (String × List (String × ℚ)) × List String :=
  match findCourse courses e.1 with
  | none => (acc.1 ++ [e], acc.2)
  | some course =>
      let max_capacity := effectiveCap course.capacity oversub
      let proposals := e.2.mergeSort descLE
      let accepted := proposals.take max_capacity.toNat
      let rejectedHere := proposals.drop max_capacity.toNat
      (acc.1 ++ [(e.1, accepted)],
       acc.2 ++ rejectedHere.map (fun x => x.1))

/-- The per-course trim (second inner loop of a round). -/
def rejectionPhase (oversub : ℚ) (courses : List Course)
    (tent : List (String × List (String × ℚ))) :
    List (String × List (String × ℚ)) × List String :=
  tent.foldl (rejectionStep oversub courses) ([], [])

/-- One iteration of the `while active_students` loop: the proposal fold
over the active students, then the per-course rejection phase; the rejected
and unmatched students form the next round's active set. -/
def soRound (prefs : List (String × StudentCoursePreferences))
    (courses : List Course) (store : WaitlistStore) (oversub : ℚ)
    (st : SOState) : SOState :=
  let acc := st.active.foldl (proposalStep prefs courses store) (st, [])
  let rej := rejectionPhase oversub courses acc.1.tentative
  { proposal_idx := acc.1.proposal_idx
    tentative := rej.1
    active := acc.2 ++ rej.2 }

/-- The `while active_students` loop, fuel-indexed (the Python loop always
terminates because every proposal advances an index bounded by the
preference-list length; any fuel at least `total preference length + number
of students + 1` reproduces the full run, and the batch invariants below
hold for every fuel). -/
def student_optimal_loop (prefs : List (String × StudentCoursePreferences))
    (courses : List Course) (store : WaitlistStore) (oversub : ℚ) :
    ℕ → SOState → SOState
  | 0, st => st
  | Nat.succ fuel, st =>
      if st.active = [] then st
      else student_optimal_loop prefs courses store oversub fuel
        (soRound prefs courses store oversub st)

/-- The canonical fuel: enough for every student to walk their whole
preference list and drain. -/
def soFuel (prefs : List (String × StudentCoursePreferences)) : ℕ :=
  (prefs.foldl (fun n e => n + e.2.course_ids.length) 0) + prefs.length + 1

/-- The state the deferred-acceptance loop ends in. -/
def student_optimal_final (oversub : ℚ) (courses : List Course)
    (prefs : List (String × StudentCoursePreferences))
    (store : WaitlistStore) : SOState :=
  student_optimal_loop prefs courses store oversub (soFuel prefs)
    ⟨[], [], prefs.map (fun e => e.1)⟩

/-- One committed tentative acceptance: enroll the student, remove them
from the waitlist, emit a REGISTERED result. -/
def soCommitStep (prefs : List (String × StudentCoursePreferences))
    (course_id : String) (st : BatchState) (entry : String × ℚ) :
    BatchState :=
  let priority := match lookupPref prefs entry.1 with
    | some p => p.get_priority course_id
    | none => 999
  { st with
    batch_allocations := st.batch_allocations ++ [entry.1]
    enrollments := addMem st.enrollments course_id entry.1
    student_courses := addMem st.student_courses entry.1 course_id
    enrollment := bumpEnr st.enrollment course_id
    store := remove_from_waitlist st.store course_id entry.1
    results := st.results ++
      [⟨entry.1, course_id, true, .REGISTERED, .allocated priority, none,
        some entry.2⟩] }

/-- The commit loop of `_student_optimal_allocation`. -/
def soCommit (prefs : List (String × StudentCoursePreferences))
    (tent : List (String × List (String × ℚ))) (st0 : BatchState) :
    BatchState :=
  tent.foldl (fun st e => e.2.foldl (soCommitStep prefs e.1) st) st0

/-- `AllocationEngine._student_optimal_allocation`. -/
def student_optimal_allocation (oversub : ℚ) (courses : List Course)
    (prefs : List (String × StudentCoursePreferences))
    (st : BatchState) : BatchState :=
  soCommit prefs (student_optimal_final oversub courses prefs st.store).tentative st

/-- `AllocationEngine.run_batch_allocation`: dispatch on the configured
strategy (`_greedy_allocation` delegates to `_balanced_allocation`). -/
def run_batch_allocation (config : BatchAllocationConfig)
    (courses : List Course)
    (prefs : List (String × StudentCoursePreferences))
    (st : BatchState) : BatchState :=
  match config.strategy with
  | .BALANCED => balanced_allocation config.allow_oversubscription courses prefs st
  | .STUDENT_OPTIMAL =>
      student_optimal_allocation config.allow_oversubscription courses prefs st
  | _ => balanced_allocation config.allow_oversubscription courses prefs st

/-! ### Dropout and vacancy fill -/

/-- The engine state touched by the dropout path: the two enrollment maps,
the waitlist store and the held per-course locks. -/
structure EngineState where
  enrollments : List (String × List String)
  student_courses : List (String × List String)
  store : WaitlistStore
  locks : List String
  deriving DecidableEq, Repr

/-- `AllocationEngine.fill_vacancy`: under the course lock, pop the top
waitlisted student into the free seat.  A failed lock acquisition returns
`none`; a successful critical section releases the lock in `finally`, so
the lock set is unchanged on exit. -/
def fill_vacancy (course : Course) (st : EngineState) :
    Option AllocationResult × Course × EngineState :=
  if ¬ course.has_vacancy then (none, course, st)
  else if st.locks.contains course.course_id then (none, course, st)
  else
    match pop_top_candidate st.store course.course_id with
    | none => (none, course, st)
    | some ((student_id, score), store2) =>
        (some ⟨student_id, course.course_id, true, .REGISTERED,
           .autoRegistered, none, some score⟩,
         { course with current_enrollment := course.current_enrollment + 1 },
         { st with store := store2
                   enrollments := addMem st.enrollments course.course_id
                     student_id
                   student_courses := addMem st.student_courses student_id
                     course.course_id })

/-- `AllocationEngine.process_dropout`: no-op unless the student is enrolled;
otherwise remove the enrollment, decrement the counter and fill the
vacancy. -/
def process_dropout (student_id : String) (course : Course)
    (st : EngineState) : Option AllocationResult × Course × EngineState :=
  if ¬ (lookupMem st.enrollments course.course_id).contains student_id then
    (none, course, st)
  else
    let st2 := { st with
      enrollments := removeMem st.enrollments course.course_id student_id
      student_courses := removeMem st.student_courses student_id
        course.course_id }
    let course2 :=
      { course with current_enrollment := course.current_enrollment - 1 }
    fill_vacancy course2 st2

/-! ### Registration service (services/registration_service.py) -/

/-- The service registries relevant to `RegistrationService.apply`. -/
structure ServiceState where
  students : List (String × Student)
  courses : List (String × Course)
  preferences : List (String × StudentCoursePreferences)
  store : WaitlistStore

/-- `RegistrationService.apply`: entity lookups, the default preference list
for students without one, then `apply_for_course`.  Returns the scored
application when one is produced. -/
def service_apply (scoreFn : Student → Course → ℚ → ℕ → ℚ)
    (sv : ServiceState) (student_id course_id : String) (applied_at : ℚ) :
    Option AppRecord × AllocationResult × WaitlistStore :=
  match (sv.students.find? (fun e => e.1 == student_id)).map (fun e => e.2) with
  | none =>
      (none, ⟨student_id, course_id, false, .REJECTED, .studentNotFound,
        none, none⟩, sv.store)
  | some student =>
      match (sv.courses.find? (fun e => e.1 == course_id)).map
          (fun e => e.2) with
      | none =>
          (none, ⟨student_id, course_id, false, .REJECTED, .courseNotFound,
            none, none⟩, sv.store)
      | some course =>
          let preferences := match lookupPref sv.preferences student_id with
            | some p => p
            | none => ⟨student_id, [course_id]⟩
          let r := apply_for_course scoreFn sv.store student course
            preferences applied_at
          (some r.1, r.2.1, r.2.2)

/-! ## Concrete fixtures -/

/-- T3 course: capacity 3, empty, booking open, no gating. -/
def t3Course : Course := ⟨"C", 3, 0, [], [], 0, [], .BOOKING_OPEN⟩

/-- T3 waitlist: S1..S5 with composite scores 0.95, 0.92, 0.88, 0.85, 0.78. -/
def t3Store : WaitlistStore :=
  [("C", [("S1", mkRat 95 100), ("S2", mkRat 92 100), ("S3", mkRat 88 100),
    ("S4", mkRat 85 100), ("S5", mkRat 78 100)])]

/-- T3 preferences: every student has course C as their single (top) choice. -/
def t3Prefs : List (String × StudentCoursePreferences) :=
  [("S1", ⟨"S1", ["C"]⟩), ("S2", ⟨"S2", ["C"]⟩), ("S3", ⟨"S3", ["C"]⟩),
   ("S4", ⟨"S4", ["C"]⟩), ("S5", ⟨"S5", ["C"]⟩)]

/-- The balanced batch run on the T3 scenario. -/
def t3Run : BatchState :=
  balanced_allocation 0 [t3Course] t3Prefs
    (initialBatchState [t3Course] [] [] t3Store)

/-- Capacity-1 course that already holds one enrolled student. -/
def c2Course : Course := ⟨"C", 1, 1, [], [], 0, [], .BOOKING_OPEN⟩

/-- One waitlisted applicant for `c2Course`. -/
def c2Store : WaitlistStore := [("C", [("S", mkRat 1 2)])]

/-- The applicant's preference list. -/
def c2Prefs : List (String × StudentCoursePreferences) :=
  [("S", ⟨"S", ["C"]⟩)]

/-- The student-optimal batch run on the pre-enrolled capacity-1 course. -/
def c2Run : BatchState :=
  student_optimal_allocation 0 [c2Course] c2Prefs
    (initialBatchState [c2Course] [] [] c2Store)

/-- Empty capacity-1 course for the student-optimal waitlist test. -/
def c3Course : Course := ⟨"C", 1, 0, [], [], 0, [], .BOOKING_OPEN⟩

/-- A student who registered preferences but never applied: no waitlist
entry anywhere. -/
def c3Prefs : List (String × StudentCoursePreferences) :=
  [("S1", ⟨"S1", ["C"]⟩)]

/-- The student-optimal batch run with an empty waitlist store. -/
def c3Run : BatchState :=
  student_optimal_allocation 0 [c3Course] c3Prefs
    (initialBatchState [c3Course] [] [] [])

/-- T6 student: gpa 2.4, no completed courses. -/
def c5Student : Student := ⟨"S", mkRat 12 5, 1, [], []⟩

/-- A course requiring min gpa 2.5 AND a prerequisite the student lacks. -/
def c5Course : Course := ⟨"C", 10, 0, ["CS101"], [], mkRat 5 2, [], .BOOKING_OPEN⟩

/-- The T6-style apply call on `c5Student`/`c5Course` (the composite score
value is irrelevant to the gating path; a constant oracle is used). -/
def c5Apply : AppRecord × AllocationResult × WaitlistStore :=
  apply_for_course (fun _ _ _ _ => 0) [] c5Student c5Course ⟨"S", ["C"]⟩ 0

/-- Weights that sum to 1.01: admitted by the ±0.01 tolerance. -/
def cexWeights : ScoringWeights :=
  ⟨mkRat 45 100, mkRat 1 100, mkRat 30 100, mkRat 15 100, mkRat 10 100⟩

/-- A scoring engine with those weights, default decay and bonus, and no
known booking-open times. -/
def cexEngine : ScoringEngine := ⟨cexWeights, 168, 1, []⟩

/-- A student who maxes every component against `cexCourse` except the
neutral interest score. -/
def cexStudent : Student := ⟨"S", 4, 3, [], []⟩

/-- A course the student scores gpa 1, interest 0.5 (both tag sets empty),
time 1, year 1 and prerequisite 1 on. -/
def cexCourse : Course := ⟨"C", 10, 0, [], [], 0, [3], .BOOKING_OPEN⟩

/-- The default scoring configuration: preset weights {0.35, 0.30, 0.20,
0.10, 0.05}, decay 168h, bonus 1.0, no known booking times. -/
def defaultEngine : ScoringEngine :=
  ⟨⟨mkRat 35 100, mkRat 30 100, mkRat 20 100, mkRat 10 100, mkRat 5 100⟩,
    168, 1, []⟩

/-- The students sitting in tentative acceptance lists, in order and with
multiplicity. -/
def tentStudents (tent : List (String × List (String × ℚ))) : List String :=
  (tent.map (fun ct => ct.2.map (fun e => e.1))).flatten

/-- How many REGISTERED results a given student received. -/
def countReg (results : List AllocationResult) (sid : String) : ℕ :=
  results.countP (fun r => decide (r.student_id = sid ∧
    r.status = RegistrationStatus.REGISTERED))

/-- Every tentative acceptance is for a course of the student's own
preference list, with the score read off the waitlist store (0 if absent). -/
def TentOK (prefs : List (String × StudentCoursePreferences))
    (store : WaitlistStore)
    (tent : List (String × List (String × ℚ))) : Prop :=
  ∀ ct ∈ tent, ∀ e ∈ ct.2, ∃ p, lookupPref prefs e.1 = some p ∧
    ct.1 ∈ p.course_ids ∧ e.2 = soScore store ct.1 e.1

/-- Spec-side count: waitlisted entries with strictly greater score. -/
def countGreater (l : WL) (sc : ℚ) : ℕ :=
  l.countP (fun e => decide (sc < e.2))

/-- Spec-side count: equal-score entries inserted before the given member. -/
def countEqBefore : WL → String → ℚ → ℕ
  | [], _, _ => 0
  | e :: l, sid, sc =>
      if e.1 = sid then 0
      else (if e.2 = sc then 1 else 0) + countEqBefore l sid sc

/-! ## Theorems -/

unseal List.merge List.mergeSort Rat.add Rat.mul Rat.sub Rat.inv

open scoped List

/-- C1 (actual behaviour at the claimed T3 input): the balanced batch on a
capacity-3 course with waitlisted scores 0.95, 0.92, 0.88, 0.85, 0.78 (all
priority 1, oversubscription 0) registers only S1 and S2 and waitlists S3,
S4 and S5 (positions 1..3), ending with current_enrollment = 2 — not the
claimed S1..S3 registered and enrollment 3.  The capacity check adds
`course_fills` to a `current_enrollment` the loop has already incremented,
so every batch fill is counted twice. -/
theorem c1_t3_actual_outcome :
    t3Run.results =
      [⟨"S1", "C", true, .REGISTERED, .allocated 1, none, some (mkRat 95 100)⟩,
       ⟨"S2", "C", true, .REGISTERED, .allocated 1, none, some (mkRat 92 100)⟩,
       ⟨"S3", "C", false, .WAITLISTED, .capacityReached, some 1, some (mkRat 88 100)⟩,
       ⟨"S4", "C", false, .WAITLISTED, .capacityReached, some 2, some (mkRat 85 100)⟩,
       ⟨"S5", "C", false, .WAITLISTED, .capacityReached, some 3, some (mkRat 78 100)⟩] ∧
    lookupEnr t3Run.enrollment "C" = 2 := by
  decide

/-- C2 (counterexample): under STUDENT_OPTIMAL, a capacity-1 course that
already holds one enrolled student ends the batch with current_enrollment
= 2, strictly above its effective capacity 1 — the commit loop ignores the
pre-batch enrollment.  The final conjunct shows the deferred-acceptance
loop ran to completion (no active students left). -/
theorem c2_counterexample :
    c2Course.current_enrollment = 1 ∧
    effectiveCap c2Course.capacity 0 = 1 ∧
    lookupEnr c2Run.enrollment "C" = 2 ∧
    (student_optimal_final 0 [c2Course] c2Prefs c2Store).active = [] := by
  decide

/-- C3 (counterexample): under STUDENT_OPTIMAL, a student with a registered
preference list but NO waitlist entry for the course (the waitlist store is
empty) is still committed as REGISTERED with the default score 0 — students
propose to preferred courses whether or not a score was computed for them.
The final conjunct shows the loop ran to completion. -/
theorem c3_counterexample :
    c3Run.results =
      [⟨"S1", "C", true, .REGISTERED, .allocated 1, none, some 0⟩] ∧
    zscore (getWL ([] : WaitlistStore) "C") "S1" = none ∧
    (student_optimal_final 0 [c3Course] c3Prefs []).active = [] := by
  decide

/-- C5 (counterexample): when the GPA is below the course minimum AND a
prerequisite is also missing, apply returns REJECTED with the
prerequisites message, not the message carrying the GPA values (the
prerequisite check runs first). -/
theorem c5_counterexample :
    c5Student.gpa < c5Course.min_gpa ∧
    c5Apply.2.1.status = .REJECTED ∧
    c5Apply.2.1.message = .prereqNotMet ∧
    c5Apply.2.1.message ≠ .gpaBelowMinimum c5Student.gpa c5Course.min_gpa := by
  decide

/-- **C9.** Scoring-weight construction fails if and only if the sum of the
five weights lies outside [0.99, 1.01]; every tuple within the tolerance
constructs successfully. -/
theorem c9_weights_validated (g i t y p : ℚ) :
    (mkScoringWeights g i t y p).isOk = false ↔
      (g + i + t + y + p < 99/100 ∨ 101/100 < g + i + t + y + p) := by
  unfold mkScoringWeights
  by_cases h : 99/100 ≤ (ScoringWeights.mk g i t y p).total ∧
      (ScoringWeights.mk g i t y p).total ≤ 101/100
  · simp only [if_pos h, Except.isOk, Except.toBool]
    simp only [ScoringWeights.total] at h
    constructor
    · intro hfalse; cases hfalse
    · intro hout
      rcases hout with hlt | hgt
      · exact absurd h.1 (not_le.mpr hlt)
      · exact absurd h.2 (not_le.mpr hgt)
  · simp only [if_neg h, Except.isOk, Except.toBool]
    simp only [ScoringWeights.total] at h
    constructor
    · intro _
      rcases not_and_or.mp h with h1 | h2
      · exact Or.inl (not_le.mp h1)
      · exact Or.inr (not_le.mp h2)
    · intro _; trivial

/-- The application record returned by `apply_for_course` is built before
any branching: it always carries the preference priority and the oracle
score. -/
theorem apply_for_course_application (scoreFn : Student → Course → ℚ → ℕ → ℚ)
    (store : WaitlistStore) (student : Student) (course : Course)
    (preferences : StudentCoursePreferences) (applied_at : ℚ) :
    (apply_for_course scoreFn store student course preferences applied_at).1 =
      ⟨student.student_id, course.course_id,
        preferences.get_priority course.course_id, applied_at,
        scoreFn student course applied_at
          (preferences.get_priority course.course_id)⟩ := by
  unfold apply_for_course
  dsimp only
  split
  · rfl
  · split
    · rfl
    · split <;> first | rfl | (split <;> rfl)

/-- C5 (amended): an apply call with GPA strictly below the course minimum
is always REJECTED with no change to the waitlist store; the message carries
the student's GPA and the course minimum exactly when the prerequisites are
met (when they are not, the prerequisite check fires first and its message
is returned instead). -/
theorem c5_gpa_gate (scoreFn : Student → Course → ℚ → ℕ → ℚ)
    (store : WaitlistStore) (student : Student) (course : Course)
    (preferences : StudentCoursePreferences) (applied_at : ℚ)
    (h : student.gpa < course.min_gpa) :
    (apply_for_course scoreFn store student course preferences
        applied_at).2.1.status = .REJECTED ∧
    (apply_for_course scoreFn store student course preferences
        applied_at).2.1.success = false ∧
    (apply_for_course scoreFn store student course preferences
        applied_at).2.2 = store ∧
    (check_prerequisites student course = true →
      (apply_for_course scoreFn store student course preferences
          applied_at).2.1.message =
        .gpaBelowMinimum student.gpa course.min_gpa) := by
  by_cases hc : check_prerequisites student course = true
  · simp [apply_for_course, hc, h]
  · simp [apply_for_course, hc]

/-- C5 witness: a student with GPA 2.4 applying to a min-GPA-2.5 course with
no prerequisites gets the REJECTED result carrying both GPA values. -/
theorem c5_gpa_gate_witness :
    (apply_for_course (fun _ _ _ _ => 0) [] ⟨"S", mkRat 12 5, 1, [], []⟩
        ⟨"C", 10, 0, [], [], mkRat 5 2, [], .BOOKING_OPEN⟩ ⟨"S", ["C"]⟩
        0).2.1.message =
      .gpaBelowMinimum (mkRat 12 5) (mkRat 5 2) :=
  (c5_gpa_gate (fun _ _ _ _ => 0) [] ⟨"S", mkRat 12 5, 1, [], []⟩
    ⟨"C", 10, 0, [], [], mkRat 5 2, [], .BOOKING_OPEN⟩ ⟨"S", ["C"]⟩ 0
    (by decide)).2.2.2 (by decide)

/-- C10: when the student exists but has registered no preference list, the
service builds a default preference list holding only the applied course, so
the scored application carries priority_rank 1 (top choice), not the 999
sentinel. -/
theorem c10_default_preferences
    (scoreFn : Student → Course → ℚ → ℕ → ℚ) (sv : ServiceState)
    (student_id course_id : String) (applied_at : ℚ)
    (student : Student) (course : Course)
    (hs : (sv.students.find? (fun e => e.1 == student_id)).map
      (fun e => e.2) = some student)
    (hc : (sv.courses.find? (fun e => e.1 == course_id)).map
      (fun e => e.2) = some course)
    (hid : course.course_id = course_id)
    (hp : lookupPref sv.preferences student_id = none) :
    (service_apply scoreFn sv student_id course_id applied_at).1 =
      some ⟨student.student_id, course_id, 1, applied_at,
        scoreFn student course applied_at 1⟩ ∧
    (1 : ℕ) ≠ 999 := by
  have hprio : (StudentCoursePreferences.mk student_id
      [course_id]).get_priority course_id = 1 := by
    simp [StudentCoursePreferences.get_priority, List.findIdx?]
  refine ⟨?_, by decide⟩
  simp only [service_apply, hs, hc, hp]
  rw [apply_for_course_application]
  simp [hprio, hid]

/-- C10 witness: a concrete service state with a student, a course and no
preferences. -/
theorem c10_default_preferences_witness :
    (service_apply (fun _ _ _ _ => 0)
        ⟨[("S", ⟨"S", 3, 1, [], []⟩)], [("C", ⟨"C", 5, 0, [], [], 0, [],
          .BOOKING_OPEN⟩)], [], []⟩ "S" "C" 0).1 =
      some ⟨"S", "C", 1, 0, 0⟩ ∧ (1 : ℕ) ≠ 999 :=
  c10_default_preferences (fun _ _ _ _ => 0)
    ⟨[("S", ⟨"S", 3, 1, [], []⟩)], [("C", ⟨"C", 5, 0, [], [], 0, [],
      .BOOKING_OPEN⟩)], [], []⟩ "S" "C" 0 ⟨"S", 3, 1, [], []⟩
    ⟨"C", 5, 0, [], [], 0, [], .BOOKING_OPEN⟩ (by decide) (by decide)
    (by decide) (by decide)

/-- The GPA component lies in [0,1] for GPAs on the 4.0 scale. -/
theorem compute_gpa_score_mem (student : Student) (course : Course)
    (h0 : 0 ≤ student.gpa) (h4 : student.gpa ≤ 4) :
    0 ≤ compute_gpa_score student course ∧
      compute_gpa_score student course ≤ 1 := by
  unfold compute_gpa_score
  split
  · norm_num
  · rename_i h
    push_neg at h
    refine ⟨le_min (by norm_num) ?_, min_le_left _ _⟩
    have hb : (0:ℚ) ≤ min (1/10) ((student.gpa - course.min_gpa) * (5/100)) :=
      le_min (by norm_num) (mul_nonneg (sub_nonneg.mpr h) (by norm_num))
    have hbase : (0:ℚ) ≤ student.gpa / 4 := by positivity
    linarith

/-- The interest component lies in [0,1] unconditionally. -/
theorem compute_interest_score_mem (student : Student) (course : Course) :
    0 ≤ compute_interest_score student course ∧
      compute_interest_score student course ≤ 1 := by
  unfold compute_interest_score
  split
  · norm_num
  · dsimp only
    split
    · norm_num
    · rename_i hu
      have hc : ((lowerSet student.interests ∩ lowerSet course.tags).card : ℚ)
          ≤ ((lowerSet student.interests ∪ lowerSet course.tags).card : ℚ) := by
        exact_mod_cast Finset.card_le_card
          (Finset.inter_subset_union)
      have hpos : (0:ℚ) <
          ((lowerSet student.interests ∪ lowerSet course.tags).card : ℚ) := by
        exact_mod_cast Nat.pos_of_ne_zero hu
      constructor
      · positivity
      · rw [div_le_one hpos]
        exact hc

/-- The year component lies in [0,1] unconditionally. -/
theorem compute_year_score_mem (student : Student) (course : Course) :
    0 ≤ compute_year_score student course ∧
      compute_year_score student course ≤ 1 := by
  unfold compute_year_score
  split
  · norm_num
  · split <;> norm_num

/-- The prerequisite component lies in [0,1] unconditionally. -/
theorem compute_prerequisite_score_mem (student : Student) (course : Course) :
    0 ≤ compute_prerequisite_score student course ∧
      compute_prerequisite_score student course ≤ 1 := by
  unfold compute_prerequisite_score
  split
  · norm_num
  · rename_i hne
    have hcard : 0 < course.prerequisites.toFinset.card := by
      rw [Finset.card_pos]
      rcases hl : course.prerequisites with _ | ⟨a, l⟩
      · exact absurd hl hne
      · exact ⟨a, by simp⟩
    have hc : ((student.completed_courses.toFinset ∩
        course.prerequisites.toFinset).card : ℚ) ≤
        (course.prerequisites.toFinset.card : ℚ) := by
      exact_mod_cast Finset.card_le_card Finset.inter_subset_right
    have hpos : (0:ℚ) < (course.prerequisites.toFinset.card : ℚ) := by
      exact_mod_cast hcard
    constructor
    · positivity
    · rw [div_le_one hpos]
      exact hc

/-- The time component lies in [0,1] for a positive half-life and the
default maximum bonus 1.0. -/
theorem compute_time_score_mem (e : ScoringEngine) (course_id : String)
    (applied_at : ℚ) (hd : 0 < e.time_decay_hours)
    (hb : e.max_time_bonus = 1) :
    0 ≤ compute_time_score e course_id applied_at ∧
      compute_time_score e course_id applied_at ≤ 1 := by
  unfold compute_time_score
  rw [hb]
  push_cast
  rw [one_mul]
  constructor
  · exact (Real.exp_pos _).le
  · apply Real.exp_le_one_iff.mpr
    apply mul_nonpos_of_nonpos_of_nonneg
    · apply neg_nonpos_of_nonneg
      apply div_nonneg (Real.log_nonneg (by norm_num))
      exact_mod_cast hd.le
    · have : (0:ℚ) ≤ max 0 ((applied_at -
          ((e.booking_open_times.find? (fun x => x.1 == course_id)).map
            (fun x => x.2)).getD applied_at) / 3600) := le_max_left 0 _
      exact_mod_cast this

/-- C7 (amended): for every admitted configuration with non-negative
weights, positive decay and the default maximum time bonus, every component
score lies in [0,1] and the composite equals the weighted sum of the five
components exactly; the composite lies in [0,1] provided the weight total is
at most 1 (the admitted total 1.01 breaks the upper bound, see the
counterexample). -/
theorem c7_score_bounds (e : ScoringEngine) (student : Student)
    (course : Course) (applied_at : ℚ) (priority : ℕ)
    (hg0 : 0 ≤ student.gpa) (hg4 : student.gpa ≤ 4)
    (hd : 0 < e.time_decay_hours) (hb : e.max_time_bonus = 1)
    (hw1 : 0 ≤ e.weights.gpa_weight) (hw2 : 0 ≤ e.weights.interest_weight)
    (hw3 : 0 ≤ e.weights.time_weight) (hw4 : 0 ≤ e.weights.year_fit_weight)
    (hw5 : 0 ≤ e.weights.prerequisite_weight)
    (hsum : e.weights.total ≤ 1) :
    (0 ≤ (compute_score e student course applied_at priority).gpa_score ∧
      (compute_score e student course applied_at priority).gpa_score ≤ 1) ∧
    (0 ≤ (compute_score e student course applied_at priority).interest_score ∧
      (compute_score e student course applied_at priority).interest_score ≤ 1) ∧
    (0 ≤ (compute_score e student course applied_at priority).time_score ∧
      (compute_score e student course applied_at priority).time_score ≤ 1) ∧
    (0 ≤ (compute_score e student course applied_at priority).year_score ∧
      (compute_score e student course applied_at priority).year_score ≤ 1) ∧
    (0 ≤ compute_prerequisite_score student course ∧
      compute_prerequisite_score student course ≤ 1) ∧
    (compute_score e student course applied_at priority).composite_score =
      (e.weights.gpa_weight : ℝ) *
        ((compute_score e student course applied_at priority).gpa_score : ℝ) +
      (e.weights.interest_weight : ℝ) *
        ((compute_score e student course applied_at priority).interest_score : ℝ) +
      (e.weights.time_weight : ℝ) *
        (compute_score e student course applied_at priority).time_score +
      (e.weights.year_fit_weight : ℝ) *
        ((compute_score e student course applied_at priority).year_score : ℝ) +
      (e.weights.prerequisite_weight : ℝ) *
        ((compute_prerequisite_score student course : ℚ) : ℝ) ∧
    (0 ≤ (compute_score e student course applied_at priority).composite_score ∧
      (compute_score e student course applied_at priority).composite_score ≤ 1) := by
  have hg := compute_gpa_score_mem student course hg0 hg4
  have hi := compute_interest_score_mem student course
  have ht := compute_time_score_mem e course.course_id applied_at hd hb
  have hy := compute_year_score_mem student course
  have hp := compute_prerequisite_score_mem student course
  refine ⟨⟨?_, ?_⟩, ⟨?_, ?_⟩, ⟨?_, ?_⟩, ⟨?_, ?_⟩, hp, rfl, ?_, ?_⟩ <;>
    simp only [compute_score]
  · exact hg.1
  · exact hg.2
  · exact hi.1
  · exact hi.2
  · exact ht.1
  · exact ht.2
  · exact hy.1
  · exact hy.2
  · -- composite lower bound
    have c1 : (0:ℝ) ≤ (e.weights.gpa_weight : ℝ) *
        (compute_gpa_score student course : ℝ) :=
      mul_nonneg (by exact_mod_cast hw1) (by exact_mod_cast hg.1)
    have c2 : (0:ℝ) ≤ (e.weights.interest_weight : ℝ) *
        (compute_interest_score student course : ℝ) :=
      mul_nonneg (by exact_mod_cast hw2) (by exact_mod_cast hi.1)
    have c3 : (0:ℝ) ≤ (e.weights.time_weight : ℝ) *
        compute_time_score e course.course_id applied_at :=
      mul_nonneg (by exact_mod_cast hw3) ht.1
    have c4 : (0:ℝ) ≤ (e.weights.year_fit_weight : ℝ) *
        (compute_year_score student course : ℝ) :=
      mul_nonneg (by exact_mod_cast hw4) (by exact_mod_cast hy.1)
    have c5 : (0:ℝ) ≤ (e.weights.prerequisite_weight : ℝ) *
        (compute_prerequisite_score student course : ℝ) :=
      mul_nonneg (by exact_mod_cast hw5) (by exact_mod_cast hp.1)
    linarith
  · -- composite upper bound
    have u1 : (e.weights.gpa_weight : ℝ) *
        (compute_gpa_score student course : ℝ) ≤ (e.weights.gpa_weight : ℝ) :=
      mul_le_of_le_one_right (by exact_mod_cast hw1) (by exact_mod_cast hg.2)
    have u2 : (e.weights.interest_weight : ℝ) *
        (compute_interest_score student course : ℝ) ≤
        (e.weights.interest_weight : ℝ) :=
      mul_le_of_le_one_right (by exact_mod_cast hw2) (by exact_mod_cast hi.2)
    have u3 : (e.weights.time_weight : ℝ) *
        compute_time_score e course.course_id applied_at ≤
        (e.weights.time_weight : ℝ) :=
      mul_le_of_le_one_right (by exact_mod_cast hw3) ht.2
    have u4 : (e.weights.year_fit_weight : ℝ) *
        (compute_year_score student course : ℝ) ≤
        (e.weights.year_fit_weight : ℝ) :=
      mul_le_of_le_one_right (by exact_mod_cast hw4) (by exact_mod_cast hy.2)
    have u5 : (e.weights.prerequisite_weight : ℝ) *
        (compute_prerequisite_score student course : ℝ) ≤
        (e.weights.prerequisite_weight : ℝ) :=
      mul_le_of_le_one_right (by exact_mod_cast hw5) (by exact_mod_cast hp.2)
    have hs : (e.weights.gpa_weight : ℝ) + (e.weights.interest_weight : ℝ) +
        (e.weights.time_weight : ℝ) + (e.weights.year_fit_weight : ℝ) +
        (e.weights.prerequisite_weight : ℝ) ≤ 1 := by
      have := hsum
      unfold ScoringWeights.total at this
      exact_mod_cast this
    linarith

/-- C7 (counterexample): the weight tuple (0.45, 0.01, 0.30, 0.15, 0.10)
sums to 1.01 and is admitted by construction, yet a student scoring 1 on
four components and the neutral 0.5 on interest receives composite
1.005 > 1 — the composite does not stay in [0,1] for every admitted
configuration. -/
theorem c7_counterexample :
    mkScoringWeights (mkRat 45 100) (mkRat 1 100) (mkRat 30 100)
        (mkRat 15 100) (mkRat 10 100) = .ok cexWeights ∧
    ¬ ((compute_score cexEngine cexStudent cexCourse 0 1).composite_score
        ≤ 1) := by
  constructor
  · rfl
  · have hgpa : compute_gpa_score cexStudent cexCourse = 1 := by decide
    have hint : compute_interest_score cexStudent cexCourse = 1/2 := by
      decide
    have hyear : compute_year_score cexStudent cexCourse = 1 := by decide
    have hpre : compute_prerequisite_score cexStudent cexCourse = 1 := by
      decide
    have htime : compute_time_score cexEngine "C" 0 = 1 := by
      unfold compute_time_score
      dsimp only
      have h1 : ((cexEngine.booking_open_times.find?
          (fun x => x.1 == "C")).map (fun x => x.2)).getD 0 = 0 := by decide
      rw [h1]
      have h2 : (max 0 ((0 - (0:ℚ))/3600) : ℚ) = 0 := by decide
      rw [h2]
      rw [show cexEngine.max_time_bonus = 1 from rfl]
      norm_num [Real.exp_zero]
    have hcid : cexCourse.course_id = "C" := rfl
    have hw1 : cexEngine.weights.gpa_weight = mkRat 45 100 := rfl
    have hw2 : cexEngine.weights.interest_weight = mkRat 1 100 := rfl
    have hw3 : cexEngine.weights.time_weight = mkRat 30 100 := rfl
    have hw4 : cexEngine.weights.year_fit_weight = mkRat 15 100 := rfl
    have hw5 : cexEngine.weights.prerequisite_weight = mkRat 10 100 := rfl
    have hcomp : (compute_score cexEngine cexStudent cexCourse 0
        1).composite_score =
        ((mkRat 45 100 : ℚ) : ℝ) * 1 +
        ((mkRat 1 100 : ℚ) : ℝ) * ((1/2 : ℚ) : ℝ) +
        ((mkRat 30 100 : ℚ) : ℝ) * compute_time_score cexEngine "C" 0 +
        ((mkRat 15 100 : ℚ) : ℝ) * 1 + ((mkRat 10 100 : ℚ) : ℝ) * 1 := by
      simp only [compute_score, hcid, hw1, hw2, hw3, hw4, hw5, hgpa, hint,
        hyear, hpre]
      norm_num
    rw [hcomp, htime]
    have h45 : (mkRat 45 100 : ℚ) = 45/100 := by decide
    have h01 : (mkRat 1 100 : ℚ) = 1/100 := by decide
    have h30 : (mkRat 30 100 : ℚ) = 30/100 := by decide
    have h15 : (mkRat 15 100 : ℚ) = 15/100 := by decide
    have h10 : (mkRat 10 100 : ℚ) = 10/100 := by decide
    rw [h45, h01, h30, h15, h10]
    push_cast
    norm_num

/-- C7 witness: the bounds theorem applied to the default preset weights
(total 1.0) on the concrete max-scoring student and course. -/
theorem c7_score_bounds_witness :
    (0 ≤ (compute_score defaultEngine cexStudent cexCourse 0 1).gpa_score ∧
      (compute_score defaultEngine cexStudent cexCourse 0 1).gpa_score ≤ 1) ∧
    (0 ≤ (compute_score defaultEngine cexStudent cexCourse 0 1).interest_score ∧
      (compute_score defaultEngine cexStudent cexCourse 0 1).interest_score ≤ 1) ∧
    (0 ≤ (compute_score defaultEngine cexStudent cexCourse 0 1).time_score ∧
      (compute_score defaultEngine cexStudent cexCourse 0 1).time_score ≤ 1) ∧
    (0 ≤ (compute_score defaultEngine cexStudent cexCourse 0 1).year_score ∧
      (compute_score defaultEngine cexStudent cexCourse 0 1).year_score ≤ 1) ∧
    (0 ≤ compute_prerequisite_score cexStudent cexCourse ∧
      compute_prerequisite_score cexStudent cexCourse ≤ 1) ∧
    (compute_score defaultEngine cexStudent cexCourse 0 1).composite_score =
      (defaultEngine.weights.gpa_weight : ℝ) *
        ((compute_score defaultEngine cexStudent cexCourse 0 1).gpa_score : ℝ) +
      (defaultEngine.weights.interest_weight : ℝ) *
        ((compute_score defaultEngine cexStudent cexCourse 0 1).interest_score : ℝ) +
      (defaultEngine.weights.time_weight : ℝ) *
        (compute_score defaultEngine cexStudent cexCourse 0 1).time_score +
      (defaultEngine.weights.year_fit_weight : ℝ) *
        ((compute_score defaultEngine cexStudent cexCourse 0 1).year_score : ℝ) +
      (defaultEngine.weights.prerequisite_weight : ℝ) *
        ((compute_prerequisite_score cexStudent cexCourse : ℚ) : ℝ) ∧
    (0 ≤ (compute_score defaultEngine cexStudent cexCourse 0 1).composite_score ∧
      (compute_score defaultEngine cexStudent cexCourse 0 1).composite_score ≤ 1) :=
  c7_score_bounds defaultEngine cexStudent cexCourse 0 1 (by decide)
    (by decide) (by decide) (by decide) (by decide) (by decide) (by decide)
    (by decide) (by decide) (by decide)

/-- `find?` by key commutes with a key-preserving map. -/
theorem find?_map_key {β : Type} (f : (String × β) → (String × β))
    (hf : ∀ e, (f e).1 = e.1) (m : List (String × β)) (k : String) :
    (m.map f).find? (fun e => e.1 == k) =
      (m.find? (fun e => e.1 == k)).map f := by
  induction m with
  | nil => rfl
  | cons e m ih =>
      rw [List.map_cons]
      by_cases hk : e.1 = k
      · rw [List.find?_cons_of_pos, List.find?_cons_of_pos]
        · rfl
        · simp [hk]
        · simp [hf, hk]
      · rw [List.find?_cons_of_neg, List.find?_cons_of_neg]
        · exact ih
        · simp [hk]
        · simp [hf, hk]

/-- Removing a member from a keyed set-map removes it from that key's set. -/
theorem lookupMem_removeMem_self (m : List (String × List String))
    (k v : String) :
    ((lookupMem (removeMem m k v)) k).contains v = false := by
  unfold lookupMem removeMem
  rw [find?_map_key _ (by intro e; by_cases h : e.1 = k <;> simp [h])]
  cases hf : m.find? (fun e => e.1 == k) with
  | none => rfl
  | some e =>
      have := List.find?_some hf
      simp only [Option.map_some, Option.map, Option.getD]
      rw [if_pos this]
      simp

/-- Adding a different member to a key's set does not affect membership of
another member. -/
theorem contains_lookupMem_addMem_same (m : List (String × List String))
    (k v sid : String) (h : sid ≠ v) :
    ((lookupMem (addMem m k v)) k).contains sid =
      ((lookupMem m k)).contains sid := by
  unfold addMem
  by_cases hmem : m.any (fun e => e.1 == k) = true
  · rw [if_pos hmem]
    unfold lookupMem
    rw [find?_map_key _ (by intro e; by_cases he : e.1 = k <;> simp [he])]
    cases hf : m.find? (fun e => e.1 == k) with
    | none => rfl
    | some e =>
        have hp := List.find?_some hf
        simp only [Option.map_some, Option.map, Option.getD]
        rw [if_pos hp]
        by_cases hc : e.2.contains v = true
        · rw [if_pos hc]
        · rw [if_neg hc]
          simp [h]
  · rw [if_neg hmem]
    unfold lookupMem
    have hnone : m.find? (fun e => e.1 == k) = none := by
      rw [List.find?_eq_none]
      intro e he
      by_contra hbe
      exact hmem (List.any_eq_true.mpr ⟨e, he, by simpa using hbe⟩)
    rw [List.find?_append, hnone]
    simp [h]

/-- Adding a member under one key leaves other keys' sets unchanged. -/
theorem lookupMem_addMem_ne (m : List (String × List String))
    (k' v k : String) (h : k' ≠ k) :
    lookupMem (addMem m k' v) k = lookupMem m k := by
  unfold addMem
  by_cases hmem : m.any (fun e => e.1 == k') = true
  · rw [if_pos hmem]
    unfold lookupMem
    rw [find?_map_key _ (by intro e; by_cases he : e.1 = k' <;> simp [he])]
    cases hf : m.find? (fun e => e.1 == k) with
    | none => rfl
    | some e =>
        have hp := List.find?_some hf
        simp only [Option.map_some, Option.map, Option.getD]
        have he : (e.1 == k') = false := by
          simp only [beq_iff_eq] at hp ⊢
          simp [hp, h.symm]
        rw [if_neg (by simp [he])]
  · rw [if_neg hmem]
    unfold lookupMem
    rw [List.find?_append]
    cases hf : m.find? (fun e => e.1 == k) with
    | none =>
        simp only [Option.none_or]
        rw [List.find?_cons_of_neg, List.find?_nil]
        simp [h]
    | some e => rfl

/-- The two outcomes of `fill_vacancy` when a vacancy exists and the course
lock is free: on an empty waitlist nothing happens; otherwise the top
waitlisted student is popped and enrolled. -/
theorem fill_vacancy_run (course : Course) (st : EngineState)
    (hvac : course.has_vacancy = true)
    (hlock : st.locks.contains course.course_id = false) :
    (zrevrangeAll (getWL st.store course.course_id) = [] →
      fill_vacancy course st = (none, course, st)) ∧
    (∀ top rest,
      zrevrangeAll (getWL st.store course.course_id) = top :: rest →
      fill_vacancy course st =
        (some ⟨top.1, course.course_id, true, .REGISTERED, .autoRegistered,
          none, some top.2⟩,
         { course with current_enrollment := course.current_enrollment + 1 },
         { st with
            store := setWL st.store course.course_id
              (zrem (getWL st.store course.course_id) top.1)
            enrollments := addMem st.enrollments course.course_id top.1
            student_courses := addMem st.student_courses top.1
              course.course_id })) := by
  have hlock2 : course.course_id ∉ st.locks := by simpa using hlock
  constructor
  · intro hnil
    unfold fill_vacancy pop_top_candidate
    rw [hnil]
    simp [hvac, hlock2]
  · intro top rest hcons
    unfold fill_vacancy pop_top_candidate
    rw [hcons]
    simp [hvac, hlock2]

/-- C8: dropping a student not enrolled in the course is a no-op returning
none; dropping an enrolled student removes them from both enrollment maps,
decrements the enrollment counter, and the triggered vacancy fill either
enrolls the top waitlisted student (REGISTERED result carrying that
student's stored score, net enrollment unchanged) or returns none when the
waitlist is empty (net enrollment one lower).  Hypotheses: the course lock
is free, enrollment does not exceed capacity (invariant I1 with
oversubscription 0), and the dropping student is not on the course's own
waitlist (invariant I2). -/
theorem c8_dropout_fill (student_id : String) (course : Course)
    (st : EngineState)
    (hlock : st.locks.contains course.course_id = false)
    (hcap : course.current_enrollment ≤ (course.capacity : ℤ))
    (hnw : ∀ e ∈ getWL st.store course.course_id, e.1 ≠ student_id) :
    ((lookupMem st.enrollments course.course_id).contains student_id = false →
      process_dropout student_id course st = (none, course, st)) ∧
    ((lookupMem st.enrollments course.course_id).contains student_id = true →
      (lookupMem (process_dropout student_id course st).2.2.enrollments
          course.course_id).contains student_id = false ∧
      (lookupMem (process_dropout student_id course st).2.2.student_courses
          student_id).contains course.course_id = false ∧
      (get_all_waitlisted st.store course.course_id = [] →
        (process_dropout student_id course st).1 = none ∧
        (process_dropout student_id course st).2.1.current_enrollment =
          course.current_enrollment - 1) ∧
      (∀ top rest,
        get_all_waitlisted st.store course.course_id = top :: rest →
        (process_dropout student_id course st).1 =
          some ⟨top.1, course.course_id, true, .REGISTERED, .autoRegistered,
            none, some top.2⟩ ∧
        (process_dropout student_id course st).2.1.current_enrollment =
          course.current_enrollment)) := by
  constructor
  · intro h
    unfold process_dropout
    rw [if_pos (by rw [h]; decide)]
  · intro h
    have hpd : process_dropout student_id course st =
        fill_vacancy
          { course with current_enrollment := course.current_enrollment - 1 }
          { st with
              enrollments := removeMem st.enrollments course.course_id
                student_id
              student_courses := removeMem st.student_courses student_id
                course.course_id } := by
      unfold process_dropout
      rw [if_neg (by rw [h]; decide)]
    have hvac2 : ({ course with current_enrollment :=
        course.current_enrollment - 1 } : Course).has_vacancy = true := by
      simp only [Course.has_vacancy, Course.available_seats,
        decide_eq_true_eq]
      omega
    have hrun := fill_vacancy_run
      { course with current_enrollment := course.current_enrollment - 1 }
      { st with
          enrollments := removeMem st.enrollments course.course_id student_id
          student_courses := removeMem st.student_courses student_id
            course.course_id }
      hvac2 hlock
    cases hw : zrevrangeAll (getWL st.store course.course_id) with
    | nil =>
        rw [hpd, hrun.1 hw]
        refine ⟨lookupMem_removeMem_self _ _ _,
          lookupMem_removeMem_self _ _ _, ?_, ?_⟩
        · intro _; exact ⟨rfl, rfl⟩
        · intro top rest htr
          rw [show get_all_waitlisted st.store course.course_id =
            zrevrangeAll (getWL st.store course.course_id) from rfl, hw]
            at htr
          cases htr
    | cons top rest =>
        have htopmem : top ∈ getWL st.store course.course_id := by
          have : top ∈ zrevrangeAll (getWL st.store course.course_id) := by
            rw [hw]; exact List.mem_cons_self _ _
          unfold zrevrangeAll sortedDesc at this
          exact (List.mem_mergeSort).mp this
        have htopne : top.1 ≠ student_id := hnw top htopmem
        rw [hpd, hrun.2 top rest hw]
        refine ⟨?_, ?_, ?_, ?_⟩
        · rw [contains_lookupMem_addMem_same _ _ _ _
            (fun hsv => htopne hsv.symm)]
          exact lookupMem_removeMem_self _ _ _
        · rw [lookupMem_addMem_ne _ _ _ _ htopne]
          exact lookupMem_removeMem_self _ _ _
        · intro hnil
          rw [show get_all_waitlisted st.store course.course_id =
            zrevrangeAll (getWL st.store course.course_id) from rfl, hw]
            at hnil
          cases hnil
        · intro top2 rest2 htr
          rw [show get_all_waitlisted st.store course.course_id =
            zrevrangeAll (getWL st.store course.course_id) from rfl, hw]
            at htr
          cases htr
          refine ⟨rfl, ?_⟩
          show course.current_enrollment - 1 + 1 = course.current_enrollment
          omega

/-- C8 witness: an enrolled student drops a capacity-2 course holding one
waiter; the waiter is auto-registered with their stored score. -/
theorem c8_dropout_fill_witness :
    ((lookupMem ([("C", ["S"])] : List (String × List String)) "C").contains
        "S" = false →
      process_dropout "S" ⟨"C", 2, 1, [], [], 0, [], .COURSE_STARTED⟩
        ⟨[("C", ["S"])], [("S", ["C"])], [("C", [("T", 1)])], []⟩ =
        (none, ⟨"C", 2, 1, [], [], 0, [], .COURSE_STARTED⟩,
          ⟨[("C", ["S"])], [("S", ["C"])], [("C", [("T", 1)])], []⟩)) ∧
    ((lookupMem ([("C", ["S"])] : List (String × List String)) "C").contains
        "S" = true →
      (lookupMem (process_dropout "S"
          ⟨"C", 2, 1, [], [], 0, [], .COURSE_STARTED⟩
          ⟨[("C", ["S"])], [("S", ["C"])], [("C", [("T", 1)])],
            []⟩).2.2.enrollments "C").contains "S" = false ∧
      (lookupMem (process_dropout "S"
          ⟨"C", 2, 1, [], [], 0, [], .COURSE_STARTED⟩
          ⟨[("C", ["S"])], [("S", ["C"])], [("C", [("T", 1)])],
            []⟩).2.2.student_courses "S").contains "C" = false ∧
      (get_all_waitlisted ([("C", [("T", 1)])] : WaitlistStore) "C" = [] →
        (process_dropout "S" ⟨"C", 2, 1, [], [], 0, [], .COURSE_STARTED⟩
          ⟨[("C", ["S"])], [("S", ["C"])], [("C", [("T", 1)])], []⟩).1 =
          none ∧
        (process_dropout "S" ⟨"C", 2, 1, [], [], 0, [], .COURSE_STARTED⟩
          ⟨[("C", ["S"])], [("S", ["C"])], [("C", [("T", 1)])],
            []⟩).2.1.current_enrollment = 1 - 1) ∧
      (∀ top rest,
        get_all_waitlisted ([("C", [("T", 1)])] : WaitlistStore) "C" =
          top :: rest →
        (process_dropout "S" ⟨"C", 2, 1, [], [], 0, [], .COURSE_STARTED⟩
          ⟨[("C", ["S"])], [("S", ["C"])], [("C", [("T", 1)])], []⟩).1 =
          some ⟨top.1, "C", true, .REGISTERED, .autoRegistered, none,
            some top.2⟩ ∧
        (process_dropout "S" ⟨"C", 2, 1, [], [], 0, [], .COURSE_STARTED⟩
          ⟨[("C", ["S"])], [("S", ["C"])], [("C", [("T", 1)])],
            []⟩).2.1.current_enrollment = 1)) :=
  c8_dropout_fill "S" ⟨"C", 2, 1, [], [], 0, [], .COURSE_STARTED⟩
    ⟨[("C", ["S"])], [("S", ["C"])], [("C", [("T", 1)])], []⟩
    (by decide) (by decide) (by decide)

/-- The keys of a tentative map after an append. -/
theorem tentAppend_keys (tent : List (String × List (String × ℚ)))
    (k : String) (ent : String × ℚ) :
    (tentAppend tent k ent).map (fun e => e.1) =
      if tent.any (fun e => e.1 == k) = true then tent.map (fun e => e.1)
      else tent.map (fun e => e.1) ++ [k] := by
  unfold tentAppend
  by_cases h : tent.any (fun e => e.1 == k) = true
  · rw [if_pos h, if_pos h, List.map_map]
    apply List.map_congr_left
    intro e _
    by_cases he : e.1 = k <;> simp [he]
  · rw [if_neg h, if_neg h, List.map_append]
    rfl

/-- A tentative append keeps the keys duplicate-free. -/
theorem tentAppend_keys_nodup (tent : List (String × List (String × ℚ)))
    (k : String) (ent : String × ℚ)
    (h : (tent.map (fun e => e.1)).Nodup) :
    ((tentAppend tent k ent).map (fun e => e.1)).Nodup := by
  rw [tentAppend_keys]
  split
  · exact h
  · rename_i hany
    have hk : k ∉ tent.map (fun e => e.1) := by
      intro hmem
      rcases List.mem_map.mp hmem with ⟨e, he, hke⟩
      exact hany (List.any_eq_true.mpr ⟨e, he, by simp [hke]⟩)
    rw [List.nodup_append]
    refine ⟨h, List.nodup_singleton _, ?_⟩
    intro a ha hamem
    rw [List.mem_singleton] at hamem
    exact hk (hamem ▸ ha)

/-- Every entry of a tentative map after an append either was already
present under the same key or is the appended entry under its key. -/
theorem tentAppend_entries (tent : List (String × List (String × ℚ)))
    (k : String) (ent : String × ℚ) :
    ∀ ct ∈ tentAppend tent k ent, ∀ e ∈ ct.2,
      (∃ ct0 ∈ tent, ct0.1 = ct.1 ∧ e ∈ ct0.2) ∨ (ct.1 = k ∧ e = ent) := by
  unfold tentAppend
  split
  · intro ct hct e he
    rcases List.mem_map.mp hct with ⟨ct0, hct0, hf⟩
    by_cases hk : ct0.1 = k
    · rw [if_pos (by simp [hk])] at hf
      subst hf
      rcases List.mem_append.mp he with h0 | h0
      · exact Or.inl ⟨ct0, hct0, hk, h0⟩
      · exact Or.inr ⟨rfl, by simpa using h0⟩
    · rw [if_neg (by simp [hk])] at hf
      subst hf
      exact Or.inl ⟨ct0, hct0, rfl, he⟩
  · intro ct hct e he
    rcases List.mem_append.mp hct with h0 | h0
    · exact Or.inl ⟨ct, h0, rfl, he⟩
    · have : ct = (k, [ent]) := by simpa using h0
      subst this
      exact Or.inr ⟨rfl, by simpa using he⟩

/-- With duplicate-free keys, a tentative append adds exactly one student
occurrence (up to permutation). -/
theorem tentStudents_tentAppend (tent : List (String × List (String × ℚ)))
    (k : String) (ent : String × ℚ)
    (hnd : (tent.map (fun e => e.1)).Nodup) :
    tentStudents (tentAppend tent k ent) ~ ent.1 :: tentStudents tent := by
  unfold tentAppend
  by_cases h : tent.any (fun e => e.1 == k) = true
  · rw [if_pos h]
    induction tent with
    | nil => simp at h
    | cons ct tent ih =>
        rw [List.map_cons] at hnd
        by_cases hk : ct.1 = k
        · rw [List.map_cons, if_pos (by simp [hk])]
          have hrest : tent.map
              (fun e => if e.1 == k then (k, e.2 ++ [ent]) else e) = tent := by
            rw [List.map_congr_left, List.map_id]
            intro e he
            have : ¬ e.1 = k := by
              intro hek
              have hmem : ct.1 ∈ tent.map (fun x => x.1) :=
                List.mem_map.mpr ⟨e, he, by rw [hek, hk]⟩
              exact (List.nodup_cons.mp hnd).1 hmem
            simp [this]
          rw [hrest]
          unfold tentStudents
          rw [List.map_cons, List.flatten_cons, List.map_cons,
            List.flatten_cons, List.map_append]
          have : (ct.2.map (fun e => e.1) ++ [ent.1]) ~
              ent.1 :: ct.2.map (fun e => e.1) := List.perm_append_comm
          calc (ct.2.map (fun e => e.1) ++ [ent.1]) ++
              (tent.map (fun ct => ct.2.map (fun e => e.1))).flatten
              ~ (ent.1 :: ct.2.map (fun e => e.1)) ++
                (tent.map (fun ct => ct.2.map (fun e => e.1))).flatten :=
                this.append_right _
            _ = ent.1 :: (ct.2.map (fun e => e.1) ++
                (tent.map (fun ct => ct.2.map (fun e => e.1))).flatten) := rfl
        · rw [List.map_cons, if_neg (by simp [hk])]
          have hany : tent.any (fun e => e.1 == k) = true := by
            rcases List.any_eq_true.mp h with ⟨e, he, hbe⟩
            rcases List.mem_cons.mp he with rfl | he2
            · exact absurd (by simpa using hbe) hk
            · exact List.any_eq_true.mpr ⟨e, he2, hbe⟩
          have ihp := ih (List.nodup_cons.mp hnd).2 hany
          unfold tentStudents at ihp ⊢
          rw [List.map_cons, List.flatten_cons, List.map_cons,
            List.flatten_cons]
          calc ct.2.map (fun e => e.1) ++
              ((tent.map (fun e => if e.1 == k then (k, e.2 ++ [ent])
                else e)).map (fun ct => ct.2.map (fun e => e.1))).flatten
              ~ ct.2.map (fun e => e.1) ++ (ent.1 ::
                (tent.map (fun ct => ct.2.map (fun e => e.1))).flatten) :=
                ihp.append_left _
            _ ~ ent.1 :: (ct.2.map (fun e => e.1) ++
                (tent.map (fun ct => ct.2.map (fun e => e.1))).flatten) :=
                List.perm_middle
  · rw [if_neg h]
    unfold tentStudents
    rw [List.map_append, List.flatten_append]
    simp only [List.map_cons, List.map_nil, List.flatten_cons,
      List.flatten_nil, List.append_nil]
    exact List.perm_append_comm.trans (by rfl)

/-- The four possible effects of one proposal on the accumulator: skip,
activate again on an unknown course, or append to a tentative list. -/
theorem proposalStep_shape (prefs : List (String × StudentCoursePreferences))
    (courses : List Course) (store : WaitlistStore)
    (acc : SOState × List String) (sid : String) :
    proposalStep prefs courses store acc sid = acc ∨
    (∃ st', proposalStep prefs courses store acc sid = (st', acc.2 ++ [sid])
      ∧ st'.tentative = acc.1.tentative) ∨
    (∃ st' cid, proposalStep prefs courses store acc sid = (st', acc.2) ∧
      st'.tentative = tentAppend acc.1.tentative cid
        (sid, soScore store cid sid) ∧
      (∃ p, lookupPref prefs sid = some p ∧ cid ∈ p.course_ids) ∧
      (∃ c, findCourse courses cid = some c)) := by
  obtain ⟨st, na⟩ := acc
  unfold proposalStep
  cases hp : lookupPref prefs sid with
  | none => exact Or.inl rfl
  | some p =>
      dsimp only
      cases hci : p.course_ids[lookupIdx st.proposal_idx sid]? with
      | none => exact Or.inl rfl
      | some cid =>
          dsimp only
          cases hf : findCourse courses cid with
          | none =>
              exact Or.inr (Or.inl ⟨_, rfl, rfl⟩)
          | some c =>
              exact Or.inr (Or.inr ⟨_, cid, rfl, rfl,
                ⟨p, rfl, List.getElem?_mem hci⟩, ⟨c, hf⟩⟩)

/-- TentOK is preserved by one proposal. -/
theorem proposalStep_tentOK (prefs : List (String × StudentCoursePreferences))
    (courses : List Course) (store : WaitlistStore)
    (acc : SOState × List String) (sid : String)
    (h : TentOK prefs store acc.1.tentative) :
    TentOK prefs store
      (proposalStep prefs courses store acc sid).1.tentative := by
  rcases proposalStep_shape prefs courses store acc sid with
    heq | ⟨st', heq, ht⟩ | ⟨st', cid, heq, ht, ⟨p, hp, hmem⟩, -⟩
  · rw [heq]; exact h
  · rw [heq]; dsimp only; rw [ht]; exact h
  · rw [heq]; dsimp only; rw [ht]
    intro ct hct e he
    rcases tentAppend_entries _ _ _ ct hct e he with
      ⟨ct0, h0, hk, he0⟩ | ⟨hk, he0⟩
    · rcases h ct0 h0 e he0 with ⟨p0, hp0, hm0, hs0⟩
      exact ⟨p0, hp0, by rw [← hk]; exact hm0, by rw [← hk]; exact hs0⟩
    · subst he0
      exact ⟨p, hp, by rw [hk]; exact hmem, by rw [hk]⟩

/-- TentOK is preserved by the whole proposal fold. -/
theorem proposal_foldl_tentOK
    (prefs : List (String × StudentCoursePreferences))
    (courses : List Course) (store : WaitlistStore) (l : List String)
    (acc : SOState × List String)
    (h : TentOK prefs store acc.1.tentative) :
    TentOK prefs store
      (l.foldl (proposalStep prefs courses store) acc).1.tentative := by
  induction l generalizing acc with
  | nil => exact h
  | cons sid l ih =>
      exact ih _ (proposalStep_tentOK prefs courses store acc sid h)

/-- Entries kept by one rejection step come from the accumulator or from
the processed course's own proposal list. -/
theorem rejectionStep_out_entries (oversub : ℚ) (courses : List Course)
    (acc : List (String × List (String × ℚ)) × List String)
    (e : String × List (String × ℚ)) :
    ∀ ct ∈ (rejectionStep oversub courses acc e).1,
      ct ∈ acc.1 ∨ (ct.1 = e.1 ∧ ∀ x ∈ ct.2, x ∈ e.2) := by
  unfold rejectionStep
  cases hf : findCourse courses e.1 with
  | none =>
      intro ct hct
      rcases List.mem_append.mp hct with h | h
      · exact Or.inl h
      · have : ct = e := by simpa using h
        subst this
        exact Or.inr ⟨rfl, fun x hx => hx⟩
  | some c =>
      intro ct hct
      dsimp only at hct
      rcases List.mem_append.mp hct with h | h
      · exact Or.inl h
      · have : ct = (e.1, (e.2.mergeSort descLE).take
            (effectiveCap c.capacity oversub).toNat) := by simpa using h
        subst this
        refine Or.inr ⟨rfl, fun x hx => ?_⟩
        exact List.mem_mergeSort.mp (List.mem_of_mem_take hx)

/-- TentOK is preserved by the rejection fold. -/
theorem rejection_foldl_tentOK (oversub : ℚ) (courses : List Course)
    (prefs : List (String × StudentCoursePreferences))
    (store : WaitlistStore)
    (tent : List (String × List (String × ℚ)))
    (acc : List (String × List (String × ℚ)) × List String)
    (htent : TentOK prefs store tent) (hacc : TentOK prefs store acc.1) :
    TentOK prefs store
      (tent.foldl (rejectionStep oversub courses) acc).1 := by
  induction tent generalizing acc with
  | nil => exact hacc
  | cons ct tent ih =>
      refine ih _ (fun c hc => htent c (List.mem_cons_of_mem _ hc)) ?_
      intro ct2 hct2 e he
      rcases rejectionStep_out_entries oversub courses acc ct ct2 hct2 with
        h | ⟨hk, hsub⟩
      · exact hacc ct2 h e he
      · rcases htent ct (List.mem_cons_self _ _) e (hsub e he) with
          ⟨p, hp, hm, hs⟩
        exact ⟨p, hp, by rw [hk]; exact hm, by rw [hk]; exact hs⟩

/-- TentOK is preserved by a whole round. -/
theorem soRound_tentOK (prefs : List (String × StudentCoursePreferences))
    (courses : List Course) (store : WaitlistStore) (oversub : ℚ)
    (st : SOState) (h : TentOK prefs store st.tentative) :
    TentOK prefs store
      (soRound prefs courses store oversub st).tentative := by
  unfold soRound rejectionPhase
  exact rejection_foldl_tentOK oversub courses prefs store _ _
    (proposal_foldl_tentOK prefs courses store st.active (st, []) h)
    (fun ct hct => absurd hct (List.not_mem_nil ct))

/-- TentOK is preserved by the deferred-acceptance loop, for any fuel. -/
theorem soLoop_tentOK (prefs : List (String × StudentCoursePreferences))
    (courses : List Course) (store : WaitlistStore) (oversub : ℚ) :
    ∀ (fuel : ℕ) (st : SOState), TentOK prefs store st.tentative →
      TentOK prefs store
        (student_optimal_loop prefs courses store oversub fuel st).tentative
  | 0, _, h => h
  | Nat.succ fuel, st, h => by
      unfold student_optimal_loop
      split
      · exact h
      · exact soLoop_tentOK prefs courses store oversub fuel _
          (soRound_tentOK prefs courses store oversub st h)

/-- The results appended by the inner commit fold for one course. -/
theorem inner_commit_results_mem
    (prefs : List (String × StudentCoursePreferences)) (cid : String) :
    ∀ (l : List (String × ℚ)) (st : BatchState) r,
      r ∈ (l.foldl (soCommitStep prefs cid) st).results →
      r ∈ st.results ∨ ∃ e ∈ l, r.student_id = e.1 ∧ r.course_id = cid ∧
        r.status = .REGISTERED ∧ r.score = some e.2 := by
  intro l
  induction l with
  | nil => exact fun st r hr => Or.inl hr
  | cons e l ih =>
      intro st r hr
      rcases ih _ r hr with h | ⟨e2, he2, rest⟩
      · have : (soCommitStep prefs cid st e).results = st.results ++
            [⟨e.1, cid, true, .REGISTERED,
              .allocated (match lookupPref prefs e.1 with
                | some p => p.get_priority cid
                | none => 999), none, some e.2⟩] := rfl
        rw [this] at h
        rcases List.mem_append.mp h with h | h
        · exact Or.inl h
        · have : r = ⟨e.1, cid, true, .REGISTERED,
              .allocated (match lookupPref prefs e.1 with
                | some p => p.get_priority cid
                | none => 999), none, some e.2⟩ := by simpa using h
          subst this
          exact Or.inr ⟨e, List.mem_cons_self _ _, rfl, rfl, rfl, rfl⟩
      · exact Or.inr ⟨e2, List.mem_cons_of_mem _ he2, rest⟩

/-- Every result row the commit loop emits comes from a tentative entry. -/
theorem soCommit_results_mem
    (prefs : List (String × StudentCoursePreferences)) :
    ∀ (tent : List (String × List (String × ℚ))) (st0 : BatchState) r,
      r ∈ (soCommit prefs tent st0).results →
      r ∈ st0.results ∨ ∃ ct ∈ tent, ∃ e ∈ ct.2, r.student_id = e.1 ∧
        r.course_id = ct.1 ∧ r.status = .REGISTERED ∧ r.score = some e.2 := by
  intro tent
  induction tent with
  | nil => exact fun st0 r hr => Or.inl hr
  | cons ct tent ih =>
      intro st0 r hr
      rcases ih _ r hr with h | ⟨ct2, h2, rest⟩
      · rcases inner_commit_results_mem prefs ct.1 ct.2 st0 r h with
          h | ⟨e, he, rest⟩
        · exact Or.inl h
        · exact Or.inr ⟨ct, List.mem_cons_self _ _, e, he, rest⟩
      · exact Or.inr ⟨ct2, List.mem_cons_of_mem _ h2, rest⟩

/-- C3 (amended): in the STUDENT_OPTIMAL batch, every committed REGISTERED
result is for a course on that student's registered preference list, with
the committed score equal to the student's waitlist score for the course
when one exists and 0 otherwise — a committed student need NOT have been on
the course's waitlist (the counterexample shows a never-waitlisted student
being enrolled with score 0). -/
theorem c3_so_registered_from_prefs (oversub : ℚ) (courses : List Course)
    (prefs : List (String × StudentCoursePreferences))
    (enrollments student_courses : List (String × List String))
    (store : WaitlistStore) :
    ∀ r ∈ (student_optimal_allocation oversub courses prefs
        (initialBatchState courses enrollments student_courses
          store)).results,
      r.status = .REGISTERED ∧ ∃ p, lookupPref prefs r.student_id = some p ∧
        r.course_id ∈ p.course_ids ∧
        r.score = some (soScore store r.course_id r.student_id) := by
  intro r hr
  unfold student_optimal_allocation at hr
  have htOK : TentOK prefs store
      (student_optimal_final oversub courses prefs store).tentative := by
    unfold student_optimal_final
    apply soLoop_tentOK
    intro ct hct
    exact absurd hct (List.not_mem_nil ct)
  rcases soCommit_results_mem prefs _ _ r hr with h | ⟨ct, hct, e, he, h1, h2, h3, h4⟩
  · exact absurd h (List.not_mem_nil r)
  · rcases htOK ct hct e he with ⟨p, hp, hm, hs⟩
    refine ⟨h3, p, by rw [h1]; exact hp, by rw [h2]; exact hm, ?_⟩
    rw [h4, hs, h2, h1]

/-- C3 witness: the concrete run `c3Run` (empty waitlist store) registers
S1 into C straight from the preference list; applying the theorem to its
single result row discharges the membership hypothesis. -/
theorem c3_so_registered_from_prefs_witness :
    (⟨"S1", "C", true, .REGISTERED, .allocated 1, none, some 0⟩ :
        AllocationResult).status = .REGISTERED ∧
    ∃ p, lookupPref c3Prefs
        (⟨"S1", "C", true, .REGISTERED, .allocated 1, none, some 0⟩ :
          AllocationResult).student_id = some p ∧
      (⟨"S1", "C", true, .REGISTERED, .allocated 1, none, some 0⟩ :
          AllocationResult).course_id ∈ p.course_ids ∧
      (⟨"S1", "C", true, .REGISTERED, .allocated 1, none, some 0⟩ :
          AllocationResult).score =
        some (soScore ([] : WaitlistStore)
          (⟨"S1", "C", true, .REGISTERED, .allocated 1, none, some 0⟩ :
            AllocationResult).course_id
          (⟨"S1", "C", true, .REGISTERED, .allocated 1, none, some 0⟩ :
            AllocationResult).student_id) :=
  c3_so_registered_from_prefs 0 [c3Course] c3Prefs [] [] []
    ⟨"S1", "C", true, .REGISTERED, .allocated 1, none, some 0⟩ (by decide)

/-- Counting REGISTERED rows across an appended single row. -/
theorem countReg_append (rs : List AllocationResult) (r : AllocationResult)
    (sid : String) :
    countReg (rs ++ [r]) sid = countReg rs sid +
      (if r.student_id = sid ∧ r.status = .REGISTERED then 1 else 0) := by
  unfold countReg
  rw [List.countP_append]
  simp [List.countP_cons]

/-- One balanced step never increases the registration budget
`countReg + (1 if the student is not yet allocated in this batch)`. -/
theorem balancedStep_inv (oversub : ℚ) (courses : List Course)
    (st : BatchState) (t : AppTuple) (sid : String) :
    countReg (balancedStep oversub courses st t).results sid +
      (if (balancedStep oversub courses st t).batch_allocations.contains sid
        = true then 0 else 1) ≤
    countReg st.results sid +
      (if st.batch_allocations.contains sid = true then 0 else 1) := by
  unfold balancedStep
  by_cases hb : st.batch_allocations.contains t.student_id = true
  · rw [if_pos hb]
  · rw [if_neg hb]
    cases hf : findCourse courses t.course_id with
    | none => exact le_refl _
    | some c =>
        dsimp only
        by_cases hcap : effectiveCap c.capacity oversub ≤
            lookupEnr st.enrollment t.course_id +
              (lookupFill st.course_fills t.course_id : ℤ)
        · rw [if_pos hcap]
          dsimp only
          rw [countReg_append]
          simp
        · rw [if_neg hcap]
          dsimp only
          rw [countReg_append]
          by_cases hs : t.student_id = sid
          · subst hs
            have hble : st.batch_allocations.contains t.student_id = false :=
              Bool.not_eq_true _ ▸ (by simpa using hb)
            have h1 : ((st.batch_allocations ++
                [t.student_id]).contains t.student_id) = true := by
              simp
            rw [if_neg hb, h1]
            simp
          · have h1 : ((st.batch_allocations ++ [t.student_id]).contains sid)
                = st.batch_allocations.contains sid := by
              simp [List.contains_eq_any_beq]
              intro h2
              exact absurd h2.symm hs
            rw [h1]
            simp [hs]

/-- The balanced fold keeps the registration budget bounded. -/
theorem balanced_foldl_inv (oversub : ℚ) (courses : List Course)
    (sid : String) :
    ∀ (l : List AppTuple) (st : BatchState),
      countReg st.results sid +
        (if st.batch_allocations.contains sid = true then 0 else 1) ≤ 1 →
      countReg (l.foldl (balancedStep oversub courses) st).results sid ≤ 1 := by
  intro l
  induction l with
  | nil =>
      intro st h
      exact le_trans (Nat.le_add_right _ _) h
  | cons t l ih =>
      intro st h
      exact ih _ (le_trans (balancedStep_inv oversub courses st t sid) h)

/-- The balanced batch gives each student at most one REGISTERED result. -/
theorem balanced_countReg_le_one (oversub : ℚ) (courses : List Course)
    (prefs : List (String × StudentCoursePreferences))
    (enrollments student_courses : List (String × List String))
    (store : WaitlistStore) (sid : String) :
    countReg (balanced_allocation oversub courses prefs
      (initialBatchState courses enrollments student_courses
        store)).results sid ≤ 1 := by
  unfold balanced_allocation
  exact balanced_foldl_inv oversub courses sid _ _ (by simp [countReg, initialBatchState])

/-- Unfolding `tentStudents` over a cons. -/
theorem tentStudents_cons (ct : String × List (String × ℚ))
    (tent : List (String × List (String × ℚ))) :
    tentStudents (ct :: tent) =
      ct.2.map (fun e => e.1) ++ tentStudents tent := rfl

/-- Unfolding `tentStudents` over an appended entry. -/
theorem tentStudents_append_single
    (tent : List (String × List (String × ℚ)))
    (ct : String × List (String × ℚ)) :
    tentStudents (tent ++ [ct]) =
      tentStudents tent ++ ct.2.map (fun e => e.1) := by
  unfold tentStudents
  rw [List.map_append, List.flatten_append]
  simp

/-- Swapping the two right factors of a double append, up to permutation. -/
theorem perm_swap_right (a b c : List String) :
    (a ++ b) ++ c ~ (a ++ c) ++ b := by
  rw [List.append_assoc, List.append_assoc]
  exact List.Perm.append_left a List.perm_append_comm

/-- The rejection fold emits every proposed student exactly once: kept
students and rejected students together are a permutation of the input
tentative students. -/
theorem rejection_foldl_students (oversub : ℚ) (courses : List Course) :
    ∀ (tent : List (String × List (String × ℚ)))
      (acc : List (String × List (String × ℚ)) × List String),
      (tentStudents (tent.foldl (rejectionStep oversub courses) acc).1 ++
        (tent.foldl (rejectionStep oversub courses) acc).2) ~
      (tentStudents acc.1 ++ acc.2) ++ tentStudents tent := by
  intro tent
  induction tent with
  | nil =>
      intro acc
      simp [tentStudents]
  | cons ct tent ih =>
      intro acc
      rw [List.foldl_cons]
      refine (ih (rejectionStep oversub courses acc ct)).trans ?_
      have hstep : (tentStudents (rejectionStep oversub courses acc ct).1 ++
          (rejectionStep oversub courses acc ct).2) ~
          (tentStudents acc.1 ++ acc.2) ++ ct.2.map (fun e => e.1) := by
        unfold rejectionStep
        cases hf : findCourse courses ct.1 with
        | none =>
            dsimp only
            rw [tentStudents_append_single]
            exact perm_swap_right _ _ _
        | some c =>
            dsimp only
            rw [tentStudents_append_single]
            have hperm : (((ct.2.mergeSort descLE).take
                  (effectiveCap c.capacity oversub).toNat).map (fun e => e.1)
                ++ ((ct.2.mergeSort descLE).drop
                  (effectiveCap c.capacity oversub).toNat).map (fun e => e.1))
                ~ ct.2.map (fun e => e.1) := by
              rw [← List.map_append, List.take_append_drop]
              exact (List.mergeSort_perm ct.2 descLE).map _
            calc (tentStudents acc.1 ++ ((ct.2.mergeSort descLE).take
                  (effectiveCap c.capacity oversub).toNat).map (fun e => e.1))
                ++ (acc.2 ++ ((ct.2.mergeSort descLE).drop
                  (effectiveCap c.capacity oversub).toNat).map (fun e => e.1))
                ~ (tentStudents acc.1 ++ acc.2) ++
                  (((ct.2.mergeSort descLE).take
                    (effectiveCap c.capacity oversub).toNat).map (fun e => e.1)
                  ++ ((ct.2.mergeSort descLE).drop
                    (effectiveCap c.capacity oversub).toNat).map
                      (fun e => e.1)) := by
                  rw [List.append_assoc, List.append_assoc]
                  refine List.Perm.append_left _ ?_
                  rw [← List.append_assoc, ← List.append_assoc]
                  exact List.Perm.append_right _ List.perm_append_comm
              _ ~ (tentStudents acc.1 ++ acc.2) ++ ct.2.map (fun e => e.1) :=
                  List.Perm.append_left _ hperm
      refine (hstep.append_right (tentStudents tent)).trans ?_
      rw [tentStudents_cons, ← List.append_assoc]

/-- The rejection fold preserves the key sequence. -/
theorem rejection_foldl_keys (oversub : ℚ) (courses : List Course) :
    ∀ (tent : List (String × List (String × ℚ)))
      (acc : List (String × List (String × ℚ)) × List String),
      ((tent.foldl (rejectionStep oversub courses) acc).1).map (fun e => e.1)
        = acc.1.map (fun e => e.1) ++ tent.map (fun e => e.1) := by
  intro tent
  induction tent with
  | nil => intro acc; simp
  | cons ct tent ih =>
      intro acc
      rw [List.foldl_cons, ih]
      have hstep : ((rejectionStep oversub courses acc ct).1).map
          (fun e => e.1) = acc.1.map (fun e => e.1) ++ [ct.1] := by
        unfold rejectionStep
        cases hf : findCourse courses ct.1 with
        | none => simp
        | some c => simp
      rw [hstep, List.map_cons, List.append_assoc]
      rfl

/-- Through the proposal fold, the pending students, the reactivated
students and the tentatively accepted students stay jointly
duplicate-free, and the tentative keys stay duplicate-free. -/
theorem proposal_foldl_nodup
    (prefs : List (String × StudentCoursePreferences))
    (courses : List Course) (store : WaitlistStore) :
    ∀ (l : List String) (acc : SOState × List String),
      ((l ++ acc.2) ++ tentStudents acc.1.tentative).Nodup →
      (acc.1.tentative.map (fun e => e.1)).Nodup →
      (((l.foldl (proposalStep prefs courses store) acc).2 ++
          tentStudents (l.foldl (proposalStep prefs courses store)
            acc).1.tentative).Nodup ∧
        ((l.foldl (proposalStep prefs courses store) acc).1.tentative.map
          (fun e => e.1)).Nodup) := by
  intro l
  induction l with
  | nil => exact fun acc h hk => ⟨by simpa using h, hk⟩
  | cons sid l ih =>
      intro acc h hk
      rcases proposalStep_shape prefs courses store acc sid with
        heq | ⟨st', heq, ht⟩ | ⟨st', cid, heq, ht, -, -⟩
      · rw [List.foldl_cons, heq]
        refine ih acc ?_ hk
        refine List.Nodup.sublist ?_ h
        exact List.Sublist.append_right
          (List.Sublist.append_right (List.sublist_cons_self sid l) acc.2)
          _
      · rw [List.foldl_cons, heq]
        refine ih (st', acc.2 ++ [sid]) ?_ (by dsimp only; rw [ht]; exact hk)
        dsimp only
        rw [ht]
        refine List.Perm.nodup ?_ h
        refine List.Perm.append_right _ ?_
        show sid :: (l ++ acc.2) ~ l ++ (acc.2 ++ [sid])
        exact (@List.perm_append_comm _ [sid] (l ++ acc.2)).trans
          (List.Perm.of_eq (List.append_assoc l acc.2 [sid]))
      · rw [List.foldl_cons, heq]
        have hperm := tentStudents_tentAppend acc.1.tentative cid
          (sid, soScore store cid sid) hk
        refine ih (st', acc.2) ?_ ?_
        · dsimp only
          rw [ht]
          refine List.Perm.nodup ?_ h
          calc (sid :: (l ++ acc.2)) ++ tentStudents acc.1.tentative
              = sid :: ((l ++ acc.2) ++ tentStudents acc.1.tentative) := rfl
            _ ~ (l ++ acc.2) ++ (sid :: tentStudents acc.1.tentative) :=
                List.perm_middle.symm
            _ ~ (l ++ acc.2) ++ tentStudents (tentAppend acc.1.tentative cid
                (sid, soScore store cid sid)) :=
                List.Perm.append_left _ hperm.symm
        · dsimp only
          rw [ht]
          exact tentAppend_keys_nodup _ _ _ hk

/-- One round keeps the active and tentatively accepted students jointly
duplicate-free, and the tentative keys duplicate-free. -/
theorem soRound_nodup (prefs : List (String × StudentCoursePreferences))
    (courses : List Course) (store : WaitlistStore) (oversub : ℚ)
    (st : SOState)
    (h : (st.active ++ tentStudents st.tentative).Nodup)
    (hk : (st.tentative.map (fun e => e.1)).Nodup) :
    ((soRound prefs courses store oversub st).active ++
      tentStudents (soRound prefs courses store oversub st).tentative).Nodup
    ∧ ((soRound prefs courses store oversub st).tentative.map
        (fun e => e.1)).Nodup := by
  obtain ⟨hnd, hknd⟩ := proposal_foldl_nodup prefs courses store st.active
    (st, []) (by simpa using h) hk
  unfold soRound rejectionPhase
  dsimp only
  constructor
  · have hperm := rejection_foldl_students oversub courses
      (st.active.foldl (proposalStep prefs courses store)
        (st, [])).1.tentative ([], [])
    refine List.Perm.nodup ?_ hnd
    have hperm2 : tentStudents ((st.active.foldl (proposalStep prefs courses
        store) (st, [])).1.tentative.foldl (rejectionStep oversub courses)
        ([], [])).1 ++ ((st.active.foldl (proposalStep prefs courses store)
        (st, [])).1.tentative.foldl (rejectionStep oversub courses)
        ([], [])).2 ~
        tentStudents (st.active.foldl (proposalStep prefs courses store)
          (st, [])).1.tentative := by
      refine hperm.trans ?_
      simp [tentStudents]
    calc (st.active.foldl (proposalStep prefs courses store) (st, [])).2 ++
          tentStudents (st.active.foldl (proposalStep prefs courses store)
            (st, [])).1.tentative
        ~ (st.active.foldl (proposalStep prefs courses store) (st, [])).2 ++
          (tentStudents ((st.active.foldl (proposalStep prefs courses store)
            (st, [])).1.tentative.foldl (rejectionStep oversub courses)
            ([], [])).1 ++ ((st.active.foldl (proposalStep prefs courses
            store) (st, [])).1.tentative.foldl (rejectionStep oversub
            courses) ([], [])).2) :=
          List.Perm.append_left _ hperm2.symm
      _ ~ (st.active.foldl (proposalStep prefs courses store) (st, [])).2 ++
          (((st.active.foldl (proposalStep prefs courses store)
            (st, [])).1.tentative.foldl (rejectionStep oversub courses)
            ([], [])).2 ++ tentStudents ((st.active.foldl (proposalStep
            prefs courses store) (st, [])).1.tentative.foldl (rejectionStep
            oversub courses) ([], [])).1) :=
          List.Perm.append_left _ List.perm_append_comm
      _ = ((st.active.foldl (proposalStep prefs courses store) (st, [])).2 ++
          ((st.active.foldl (proposalStep prefs courses store)
            (st, [])).1.tentative.foldl (rejectionStep oversub courses)
            ([], [])).2) ++ tentStudents ((st.active.foldl (proposalStep
            prefs courses store) (st, [])).1.tentative.foldl (rejectionStep
            oversub courses) ([], [])).1 := by
          rw [List.append_assoc]
  · have hkeys := rejection_foldl_keys oversub courses
      (st.active.foldl (proposalStep prefs courses store)
        (st, [])).1.tentative ([], [])
    rw [hkeys]
    simpa using hknd

/-- The loop invariant: active and tentative students jointly
duplicate-free, tentative keys duplicate-free, for any fuel. -/
theorem soLoop_nodup (prefs : List (String × StudentCoursePreferences))
    (courses : List Course) (store : WaitlistStore) (oversub : ℚ) :
    ∀ (fuel : ℕ) (st : SOState),
      (st.active ++ tentStudents st.tentative).Nodup →
      (st.tentative.map (fun e => e.1)).Nodup →
      ((student_optimal_loop prefs courses store oversub fuel st).active ++
        tentStudents (student_optimal_loop prefs courses store oversub fuel
          st).tentative).Nodup ∧
      ((student_optimal_loop prefs courses store oversub fuel
        st).tentative.map (fun e => e.1)).Nodup
  | 0, _, h, hk => ⟨h, hk⟩
  | Nat.succ fuel, st, h, hk => by
      unfold student_optimal_loop
      split
      · exact ⟨h, hk⟩
      · obtain ⟨h2, hk2⟩ := soRound_nodup prefs courses store oversub st h hk
        exact soLoop_nodup prefs courses store oversub fuel _ h2 hk2

/-- Counting REGISTERED rows through the inner commit fold. -/
theorem inner_commit_countReg
    (prefs : List (String × StudentCoursePreferences)) (cid : String)
    (sid : String) :
    ∀ (l : List (String × ℚ)) (st : BatchState),
      countReg (l.foldl (soCommitStep prefs cid) st).results sid =
        countReg st.results sid +
          l.countP (fun e => decide (e.1 = sid)) := by
  intro l
  induction l with
  | nil => intro st; simp
  | cons e l ih =>
      intro st
      rw [List.foldl_cons, ih]
      have : (soCommitStep prefs cid st e).results = st.results ++
          [⟨e.1, cid, true, .REGISTERED,
            .allocated (match lookupPref prefs e.1 with
              | some p => p.get_priority cid
              | none => 999), none, some e.2⟩] := rfl
      rw [this, countReg_append, List.countP_cons]
      by_cases hs : e.1 = sid <;> simp [hs] <;> omega

/-- Counting REGISTERED rows through the whole commit loop. -/
theorem soCommit_countReg
    (prefs : List (String × StudentCoursePreferences)) (sid : String) :
    ∀ (tent : List (String × List (String × ℚ))) (st0 : BatchState),
      countReg (soCommit prefs tent st0).results sid =
        countReg st0.results sid +
          (tentStudents tent).countP (fun x => decide (x = sid)) := by
  intro tent
  induction tent with
  | nil => intro st0; simp [soCommit, tentStudents]
  | cons ct tent ih =>
      intro st0
      have hstep : soCommit prefs (ct :: tent) st0 =
          soCommit prefs tent (ct.2.foldl (soCommitStep prefs ct.1) st0) :=
        rfl
      rw [hstep, ih, inner_commit_countReg prefs ct.1 sid, tentStudents_cons,
        List.countP_append, List.countP_map]
      have hcc : List.countP ((fun x => decide (x = sid)) ∘
          (fun e => (e : String × ℚ).1)) ct.2 =
          List.countP (fun e => decide ((e : String × ℚ).1 = sid)) ct.2 :=
        rfl
      rw [hcc]
      omega

/-- In the STUDENT_OPTIMAL batch with duplicate-free preference keys, each
student is committed at most once. -/
theorem so_countReg_le_one (oversub : ℚ) (courses : List Course)
    (prefs : List (String × StudentCoursePreferences))
    (enrollments student_courses : List (String × List String))
    (store : WaitlistStore) (sid : String)
    (hnd : (prefs.map (fun e => e.1)).Nodup) :
    countReg (student_optimal_allocation oversub courses prefs
      (initialBatchState courses enrollments student_courses
        store)).results sid ≤ 1 := by
  unfold student_optimal_allocation
  rw [show (initialBatchState courses enrollments student_courses
    store).store = store from rfl]
  rw [soCommit_countReg]
  have hloop := soLoop_nodup prefs courses store oversub (soFuel prefs)
    ⟨[], [], prefs.map (fun e => e.1)⟩ (by simpa [tentStudents] using hnd)
    (by simp)
  have hnodup : (tentStudents (student_optimal_final oversub courses prefs
      store).tentative).Nodup :=
    List.Nodup.sublist (List.sublist_append_right _ _) hloop.1
  have hcount := (List.nodup_iff_count_le_one.mp hnodup) sid
  have : (tentStudents (student_optimal_final oversub courses prefs
      store).tentative).countP (fun x => decide (x = sid)) =
      (tentStudents (student_optimal_final oversub courses prefs
        store).tentative).count sid := by
    unfold List.count
    apply List.countP_congr
    intro x _
    constructor
    · intro hx; simpa using (of_decide_eq_true hx)
    · intro hx; simp [(by simpa using hx : x = sid)]
  have hres0 : countReg (initialBatchState courses enrollments
      student_courses store).results sid = 0 := rfl
  rw [hres0]
  omega

/-- C4: under every configured strategy (BALANCED and GREEDY share the
balanced loop, STUDENT_OPTIMAL commits a duplicate-free tentative set, and
the fallback routes to the balanced loop), a single batch gives each
student at most one REGISTERED result, for every preference configuration
including preference lists that repeat a course — the only hypothesis is
that the preference registry is keyed uniquely (it is a dict in the
service). -/
theorem c4_at_most_one_registered (config : BatchAllocationConfig)
    (courses : List Course)
    (prefs : List (String × StudentCoursePreferences))
    (enrollments student_courses : List (String × List String))
    (store : WaitlistStore) (sid : String)
    (hnd : (prefs.map (fun e => e.1)).Nodup) :
    countReg (run_batch_allocation config courses prefs
      (initialBatchState courses enrollments student_courses
        store)).results sid ≤ 1 := by
  unfold run_batch_allocation
  cases hs : config.strategy with
  | BALANCED =>
      exact balanced_countReg_le_one config.allow_oversubscription courses
        prefs enrollments student_courses store sid
  | STUDENT_OPTIMAL =>
      exact so_countReg_le_one config.allow_oversubscription courses prefs
        enrollments student_courses store sid hnd
  | GREEDY =>
      exact balanced_countReg_le_one config.allow_oversubscription courses
        prefs enrollments student_courses store sid
  | COURSE_OPTIMAL =>
      exact balanced_countReg_le_one config.allow_oversubscription courses
        prefs enrollments student_courses store sid

/-- C4 witness: the T3 batch (with a preference list that repeats course C)
gives S1 at most one REGISTERED result. -/
theorem c4_at_most_one_registered_witness :
    countReg (run_batch_allocation ⟨.BALANCED, 5, 0, true⟩ [t3Course]
      [("S1", ⟨"S1", ["C", "C"]⟩), ("S2", ⟨"S2", ["C"]⟩)]
      (initialBatchState [t3Course] [] [] t3Store)).results "S1" ≤ 1 :=
  c4_at_most_one_registered ⟨.BALANCED, 5, 0, true⟩ [t3Course]
    [("S1", ⟨"S1", ["C", "C"]⟩), ("S2", ⟨"S2", ["C"]⟩)] [] [] t3Store "S1"
    (by decide)

/-- Bumping a course's live enrollment counter increments exactly it. -/
theorem lookupEnr_bumpEnr_self (m : List (String × ℤ)) (k : String) :
    lookupEnr (bumpEnr m k) k = lookupEnr m k + 1 := by
  unfold bumpEnr lookupEnr
  by_cases hmem : m.any (fun e => e.1 == k) = true
  · rw [if_pos hmem,
      find?_map_key _ (by intro e; by_cases h : e.1 = k <;> simp [h])]
    cases hf : m.find? (fun e => e.1 == k) with
    | none =>
        rcases List.any_eq_true.mp hmem with ⟨e, he, hbe⟩
        rw [List.find?_eq_none] at hf
        exact absurd hbe (by simpa using hf e he)
    | some e =>
        have hp := List.find?_some hf
        simp only [Option.map_some, Option.map, Option.getD]
        rw [if_pos hp]
  · rw [if_neg hmem]
    have hnone : m.find? (fun e => e.1 == k) = none := by
      rw [List.find?_eq_none]
      intro e he
      by_contra hbe
      exact hmem (List.any_eq_true.mpr ⟨e, he, by simpa using hbe⟩)
    rw [List.find?_append, hnone]
    simp

/-- Bumping one course's counter leaves other counters unchanged. -/
theorem lookupEnr_bumpEnr_ne (m : List (String × ℤ)) (k' k : String)
    (h : k' ≠ k) :
    lookupEnr (bumpEnr m k') k = lookupEnr m k := by
  unfold bumpEnr lookupEnr
  by_cases hmem : m.any (fun e => e.1 == k') = true
  · rw [if_pos hmem,
      find?_map_key _ (by intro e; by_cases he : e.1 = k' <;> simp [he])]
    cases hf : m.find? (fun e => e.1 == k) with
    | none => rfl
    | some e =>
        have hp := List.find?_some hf
        simp only [Option.map_some, Option.map, Option.getD]
        have he : (e.1 == k') = false := by
          simp only [beq_iff_eq] at hp ⊢
          simp [hp, h.symm]
        rw [if_neg (by simp [he])]
  · rw [if_neg hmem, List.find?_append]
    cases hf : m.find? (fun e => e.1 == k) with
    | none =>
        simp only [Option.none_or]
        rw [List.find?_cons_of_neg, List.find?_nil]
        simp [h]
    | some e => rfl

/-- The initial enrollment counters agree with the course registry. -/
theorem lookupEnr_init (courses : List Course) (cid : String) :
    lookupEnr (courses.map (fun c => (c.course_id, c.current_enrollment)))
      cid =
      match findCourse courses cid with
      | some c => c.current_enrollment
      | none => 0 := by
  induction courses with
  | nil => rfl
  | cons c courses ih =>
      unfold lookupEnr findCourse at ih ⊢
      rw [List.map_cons]
      by_cases hc : c.course_id = cid
      · rw [List.find?_cons_of_pos _ (by simpa using hc),
          List.find?_cons_of_pos _ (by simpa using hc)]
        rfl
      · rw [List.find?_cons_of_neg _ (by simpa using hc),
          List.find?_cons_of_neg _ (by simpa using hc)]
        exact ih

/-- One balanced step keeps every mapped course at or below its effective
capacity. -/
theorem balancedStep_capacity (oversub : ℚ) (courses : List Course)
    (st : BatchState) (t : AppTuple)
    (h : ∀ cid c, findCourse courses cid = some c →
      lookupEnr st.enrollment cid ≤ effectiveCap c.capacity oversub) :
    ∀ cid c, findCourse courses cid = some c →
      lookupEnr (balancedStep oversub courses st t).enrollment cid ≤
        effectiveCap c.capacity oversub := by
  unfold balancedStep
  by_cases hb : st.batch_allocations.contains t.student_id = true
  · rw [if_pos hb]; exact h
  · rw [if_neg hb]
    cases hf : findCourse courses t.course_id with
    | none => exact h
    | some course =>
        dsimp only
        by_cases hcap : effectiveCap course.capacity oversub ≤
            lookupEnr st.enrollment t.course_id +
              (lookupFill st.course_fills t.course_id : ℤ)
        · rw [if_pos hcap]; exact h
        · rw [if_neg hcap]
          intro cid c hc
          dsimp only
          by_cases hcid : t.course_id = cid
          · subst hcid
            have hcc : course = c := by
              rw [hf] at hc
              exact Option.some.inj hc
            subst hcc
            rw [lookupEnr_bumpEnr_self]
            have hfill : (0:ℤ) ≤ (lookupFill st.course_fills t.course_id : ℤ)
              := Int.ofNat_nonneg _
            omega
          · rw [lookupEnr_bumpEnr_ne _ _ _ hcid]
            exact h cid c hc

/-- The balanced fold keeps every mapped course at or below its effective
capacity. -/
theorem balanced_foldl_capacity (oversub : ℚ) (courses : List Course) :
    ∀ (l : List AppTuple) (st : BatchState),
      (∀ cid c, findCourse courses cid = some c →
        lookupEnr st.enrollment cid ≤ effectiveCap c.capacity oversub) →
      ∀ cid c, findCourse courses cid = some c →
        lookupEnr (l.foldl (balancedStep oversub courses) st).enrollment cid
          ≤ effectiveCap c.capacity oversub := by
  intro l
  induction l with
  | nil => exact fun st h => h
  | cons t l ih =>
      exact fun st h => ih _ (balancedStep_capacity oversub courses st t h)

/-- The rejection fold trims every kept list whose key maps to a course to
that course's effective capacity. -/
theorem rejection_foldl_trim (oversub : ℚ) (courses : List Course) :
    ∀ (tent : List (String × List (String × ℚ)))
      (acc : List (String × List (String × ℚ)) × List String),
      (∀ ct ∈ acc.1, ∀ c, findCourse courses ct.1 = some c →
        ct.2.length ≤ (effectiveCap c.capacity oversub).toNat) →
      ∀ ct ∈ (tent.foldl (rejectionStep oversub courses) acc).1, ∀ c,
        findCourse courses ct.1 = some c →
        ct.2.length ≤ (effectiveCap c.capacity oversub).toNat := by
  intro tent
  induction tent with
  | nil => exact fun acc h => h
  | cons ct tent ih =>
      intro acc h
      refine ih _ ?_
      intro ct2 hct2 c hc
      unfold rejectionStep at hct2
      cases hf : findCourse courses ct.1 with
      | none =>
          rw [hf] at hct2
          rcases List.mem_append.mp hct2 with h2 | h2
          · exact h ct2 h2 c hc
          · have : ct2 = ct := by simpa using h2
            subst this
            rw [hf] at hc
            cases hc
      | some course =>
          rw [hf] at hct2
          dsimp only at hct2
          rcases List.mem_append.mp hct2 with h2 | h2
          · exact h ct2 h2 c hc
          · have : ct2 = (ct.1, (ct.2.mergeSort descLE).take
                (effectiveCap course.capacity oversub).toNat) := by
              simpa using h2
            subst this
            have hcc : course = c := by
              rw [hf] at hc
              exact Option.some.inj hc
            subst hcc
            simpa using List.length_take_le _ _

/-- Every loop state has its tentative lists trimmed to effective capacity
(the loop starts empty and every round ends with the rejection phase). -/
theorem soLoop_trim (prefs : List (String × StudentCoursePreferences))
    (courses : List Course) (store : WaitlistStore) (oversub : ℚ) :
    ∀ (fuel : ℕ) (st : SOState),
      (∀ ct ∈ st.tentative, ∀ c, findCourse courses ct.1 = some c →
        ct.2.length ≤ (effectiveCap c.capacity oversub).toNat) →
      ∀ ct ∈ (student_optimal_loop prefs courses store oversub fuel
          st).tentative, ∀ c, findCourse courses ct.1 = some c →
        ct.2.length ≤ (effectiveCap c.capacity oversub).toNat
  | 0, _, h => h
  | Nat.succ fuel, st, h => by
      unfold student_optimal_loop
      split
      · exact h
      · refine soLoop_trim prefs courses store oversub fuel _ ?_
        intro ct hct c hc
        unfold soRound rejectionPhase at hct
        exact rejection_foldl_trim oversub courses _ ([], [])
          (fun ct2 hct2 => absurd hct2 (List.not_mem_nil ct2)) ct hct c hc

/-- The num/den integer division in `effectiveCap` is exactly the rational
floor of `capacity * (1 + oversubscription)`. -/
theorem effectiveCap_eq_floor (capacity : ℕ) (oversub : ℚ) :
    effectiveCap capacity oversub =
      Int.floor ((capacity : ℚ) * (1 + oversub)) :=
  Rat.floor_def.symm

/-- The effective capacity is non-negative for non-negative
oversubscription. -/
theorem effectiveCap_nonneg (capacity : ℕ) (oversub : ℚ)
    (h : 0 ≤ oversub) : 0 ≤ effectiveCap capacity oversub := by
  rw [effectiveCap_eq_floor]
  apply Int.floor_nonneg.mpr
  have h1 : (0:ℚ) ≤ (capacity : ℚ) := Nat.cast_nonneg _
  nlinarith

/-- Enrollment counters through the inner commit fold: the committed
course's counter grows by the number of committed entries. -/
theorem inner_commit_enrollment
    (prefs : List (String × StudentCoursePreferences)) (cid k : String) :
    ∀ (l : List (String × ℚ)) (st : BatchState),
      lookupEnr (l.foldl (soCommitStep prefs cid) st).enrollment k =
        lookupEnr st.enrollment k +
          (if cid = k then (l.length : ℤ) else 0) := by
  intro l
  induction l with
  | nil => intro st; simp
  | cons e l ih =>
      intro st
      rw [List.foldl_cons, ih]
      have hstep : (soCommitStep prefs cid st e).enrollment =
          bumpEnr st.enrollment cid := rfl
      rw [hstep]
      by_cases hk : cid = k
      · subst hk
        rw [lookupEnr_bumpEnr_self]
        simp only [if_pos rfl, List.length_cons]
        push_cast
        omega
      · rw [lookupEnr_bumpEnr_ne _ _ _ hk]
        simp [hk]

/-- Enrollment counters through the whole commit loop. -/
theorem soCommit_enrollment
    (prefs : List (String × StudentCoursePreferences)) (k : String) :
    ∀ (tent : List (String × List (String × ℚ))) (st0 : BatchState),
      lookupEnr (soCommit prefs tent st0).enrollment k =
        lookupEnr st0.enrollment k +
          (((tent.filter (fun ct => ct.1 == k)).map
            (fun ct => (ct.2.length : ℤ))).sum) := by
  intro tent
  induction tent with
  | nil => intro st0; simp [soCommit]
  | cons ct tent ih =>
      intro st0
      have hstep : soCommit prefs (ct :: tent) st0 =
          soCommit prefs tent (ct.2.foldl (soCommitStep prefs ct.1) st0) :=
        rfl
      rw [hstep, ih, inner_commit_enrollment prefs ct.1 k]
      by_cases hk : ct.1 = k
      · rw [List.filter_cons_of_pos (by simpa using hk)]
        simp only [List.map_cons, List.sum_cons, if_pos hk]
        omega
      · rw [List.filter_cons_of_neg (by simpa using hk)]
        simp [hk]

/-- With duplicate-free keys, the total committed length at one key is
bounded by any per-entry bound. -/
theorem sum_filter_le_of_nodup
    (tent : List (String × List (String × ℚ))) (k : String) (bound : ℤ)
    (hb : 0 ≤ bound)
    (hnd : (tent.map (fun e => e.1)).Nodup)
    (htrim : ∀ ct ∈ tent, ct.1 = k → (ct.2.length : ℤ) ≤ bound) :
    (((tent.filter (fun ct => ct.1 == k)).map
      (fun ct => (ct.2.length : ℤ))).sum) ≤ bound := by
  induction tent with
  | nil => simpa using hb
  | cons ct tent ih =>
      rw [List.map_cons] at hnd
      by_cases hk : ct.1 = k
      · rw [List.filter_cons_of_pos (by simpa using hk)]
        have hrest : tent.filter (fun ct => ct.1 == k) = [] := by
          rw [List.filter_eq_nil_iff]
          intro ct2 hct2
          simp only [beq_iff_eq]
          intro hk2
          exact (List.nodup_cons.mp hnd).1
            (List.mem_map.mpr ⟨ct2, hct2, by rw [hk2, hk]⟩)
        rw [hrest]
        simpa using htrim ct (List.mem_cons_self _ _) hk
      · rw [List.filter_cons_of_neg (by simpa using hk)]
        exact ih (List.nodup_cons.mp hnd).2
          (fun ct2 h2 => htrim ct2 (List.mem_cons_of_mem _ h2))

/-- C2 (amended): after a batch, no mapped course's live enrollment counter
exceeds `floor(capacity * (1 + oversubscription))` — under BALANCED/GREEDY
whenever every course starts at or below its effective capacity, and under
STUDENT_OPTIMAL whenever every course starts empty.  (The counterexample
shows STUDENT_OPTIMAL breaking the bound when a course starts with
non-zero enrollment: its commit ignores pre-batch enrollment.) -/
theorem c2_effective_capacity_bound (oversub : ℚ) (courses : List Course)
    (prefs : List (String × StudentCoursePreferences))
    (enrollments student_courses : List (String × List String))
    (store : WaitlistStore) (cid : String) (c : Course)
    (hc : findCourse courses cid = some c)
    (hover : 0 ≤ oversub)
    (hnd : (prefs.map (fun e => e.1)).Nodup) :
    ((∀ c0 ∈ courses, c0.current_enrollment ≤
        effectiveCap c0.capacity oversub) →
      lookupEnr (balanced_allocation oversub courses prefs
        (initialBatchState courses enrollments student_courses
          store)).enrollment cid ≤
        Int.floor ((c.capacity : ℚ) * (1 + oversub))) ∧
    ((∀ c0 ∈ courses, c0.current_enrollment = 0) →
      lookupEnr (student_optimal_allocation oversub courses prefs
        (initialBatchState courses enrollments student_courses
          store)).enrollment cid ≤
        Int.floor ((c.capacity : ℚ) * (1 + oversub))) := by
  have hinit : ∀ (P : ℤ → Prop),
      (∀ c0 ∈ courses, P c0.current_enrollment) → P 0 →
      ∀ cid2 c2, findCourse courses cid2 = some c2 →
        P (lookupEnr (initialBatchState courses enrollments student_courses
          store).enrollment cid2) := by
    intro P hP h0 cid2 c2 hc2
    have := lookupEnr_init courses cid2
    unfold initialBatchState
    dsimp only
    rw [this, hc2]
    exact hP c2 (List.mem_of_find?_eq_some hc2)
  constructor
  · intro hstart
    rw [← effectiveCap_eq_floor]
    unfold balanced_allocation
    refine balanced_foldl_capacity oversub courses _ _ ?_ cid c hc
    intro cid2 c2 hc2
    have := lookupEnr_init courses cid2
    unfold initialBatchState
    dsimp only
    rw [this, hc2]
    exact hstart c2 (List.mem_of_find?_eq_some hc2)
  · intro hzero
    rw [← effectiveCap_eq_floor]
    unfold student_optimal_allocation
    rw [show (initialBatchState courses enrollments student_courses
      store).store = store from rfl]
    rw [soCommit_enrollment]
    have hinit0 : lookupEnr (initialBatchState courses enrollments
        student_courses store).enrollment cid = 0 := by
      have := lookupEnr_init courses cid
      unfold initialBatchState
      dsimp only
      rw [this, hc]
      exact hzero c (List.mem_of_find?_eq_some hc)
    rw [hinit0]
    have hloopnd := soLoop_nodup prefs courses store oversub (soFuel prefs)
      ⟨[], [], prefs.map (fun e => e.1)⟩ (by simpa [tentStudents] using hnd)
      (by simp)
    have htrim := soLoop_trim prefs courses store oversub (soFuel prefs)
      ⟨[], [], prefs.map (fun e => e.1)⟩
      (fun ct hct => absurd hct (List.not_mem_nil ct))
    have hsum := sum_filter_le_of_nodup
      (student_optimal_final oversub courses prefs store).tentative cid
      (effectiveCap c.capacity oversub)
      (effectiveCap_nonneg c.capacity oversub hover)
      hloopnd.2 ?_
    · omega
    · intro ct hct hk
      have := htrim ct hct c (by rw [hk]; exact hc)
      have hnn := effectiveCap_nonneg c.capacity oversub hover
      omega

/-- C2 witness: the capacity bound instantiated on the T3 scenario, under
both strategies. -/
theorem c2_effective_capacity_bound_witness :
    ((∀ c0 ∈ [t3Course], c0.current_enrollment ≤
        effectiveCap c0.capacity 0) →
      lookupEnr (balanced_allocation 0 [t3Course] t3Prefs
        (initialBatchState [t3Course] [] [] t3Store)).enrollment "C" ≤
        Int.floor ((t3Course.capacity : ℚ) * (1 + 0))) ∧
    ((∀ c0 ∈ [t3Course], c0.current_enrollment = 0) →
      lookupEnr (student_optimal_allocation 0 [t3Course] t3Prefs
        (initialBatchState [t3Course] [] [] t3Store)).enrollment "C" ≤
        Int.floor ((t3Course.capacity : ℚ) * (1 + 0))) :=
  c2_effective_capacity_bound 0 [t3Course] t3Prefs [] [] t3Store "C"
    t3Course (by decide) (by decide) (by decide)

/-- With duplicate-free keys, entries sharing a key are equal. -/
theorem eq_of_same_key {β : Type} (l : List (String × β)) (x y : String × β)
    (hnd : (l.map (fun e => e.1)).Nodup) (hx : x ∈ l) (hy : y ∈ l)
    (hk : x.1 = y.1) : x = y := by
  induction l with
  | nil => cases hx
  | cons a l ih =>
      rw [List.map_cons] at hnd
      rcases List.mem_cons.mp hx with rfl | hx2
      · rcases List.mem_cons.mp hy with rfl | hy2
        · rfl
        · exact absurd (List.mem_map.mpr ⟨y, hy2, hk.symm⟩)
            (List.nodup_cons.mp hnd).1
      · rcases List.mem_cons.mp hy with rfl | hy2
        · exact absurd (List.mem_map.mpr ⟨x, hx2, hk⟩)
            (List.nodup_cons.mp hnd).1
        · exact ih (List.nodup_cons.mp hnd).2 hx2 hy2

/-- The descending comparison is transitive. -/
theorem descLE_trans : ∀ (a b c : String × ℚ),
    descLE a b → descLE b c → descLE a c := by
  intro a b c hab hbc
  simp only [descLE, decide_eq_true_eq] at hab hbc ⊢
  exact le_trans hbc hab

/-- The descending comparison is total. -/
theorem descLE_total : ∀ (a b : String × ℚ), descLE a b || descLE b a := by
  intro a b
  simp only [descLE]
  rcases le_total a.2 b.2 with h | h <;> simp [h]

/-- The stable-sort rank characterisation: the 0-indexed rank of a member
in the descending sorted view equals the number of strictly greater scores
plus the number of equal scores inserted earlier. -/
theorem findIdx_sortedDesc : ∀ (l : WL) (sid : String) (sc : ℚ),
    (l.map (fun e => e.1)).Nodup → (sid, sc) ∈ l →
    (sortedDesc l).findIdx (fun e => e.1 == sid) =
      countGreater l sc + countEqBefore l sid sc
  | [], sid, sc, _, hmem => absurd hmem (List.not_mem_nil _)
  | a :: xs, sid, sc, hnd, hmem => by
      obtain ⟨l₁, l₂, h₁, h₂, h₃⟩ :=
        List.mergeSort_cons descLE_trans descLE_total a xs
      have hperm₂ : (l₁ ++ l₂) ~ xs := by
        rw [← h₂]
        exact List.mergeSort_perm xs descLE
      have hsorted : List.Pairwise (fun x y => descLE x y)
          (l₁ ++ a :: l₂) := by
        rw [← h₁]
        exact List.sorted_mergeSort descLE_trans descLE_total (a :: xs)
      rw [List.map_cons] at hnd
      have hnda := (List.nodup_cons.mp hnd).1
      have hndxs := (List.nodup_cons.mp hnd).2
      unfold sortedDesc
      rw [h₁]
      by_cases ha : a.1 = sid
      · -- the member is the head of the unsorted list
        have haeq : a = (sid, sc) := by
          rcases List.mem_cons.mp hmem with h | h
          · exact h.symm
          · exact absurd (List.mem_map.mpr ⟨(sid, sc), h, ha.symm⟩) hnda
        have hl₁false : ∀ b ∈ l₁, (b.1 == sid) = false := by
          intro b hb
          have hbxs : b ∈ xs :=
            hperm₂.mem_iff.mp (List.mem_append.mpr (Or.inl hb))
          simp only [beq_eq_false_iff_ne, ne_eq]
          intro hbs
          exact hnda (ha ▸ List.mem_map.mpr ⟨b, hbxs, hbs⟩)
        rw [List.findIdx_append,
          List.findIdx_eq_length_of_false hl₁false]
        rw [if_neg (lt_irrefl _), List.findIdx_cons]
        rw [show (a.1 == sid) = true from by simp [ha]]
        show 0 + l₁.length = countGreater (a :: xs) sc +
          countEqBefore (a :: xs) sid sc
        have hCEB : countEqBefore (a :: xs) sid sc = 0 := by
          unfold countEqBefore
          rw [if_pos ha]
        have hCG : countGreater (a :: xs) sc = countGreater xs sc := by
          unfold countGreater
          rw [List.countP_cons]
          have : ¬ sc < a.2 := by rw [haeq]; exact lt_irrefl sc
          simp [this]
        have hl₁all : ∀ b ∈ l₁, decide (sc < b.2) = true := by
          intro b hb
          have := h₃ b hb
          simp only [descLE, Bool.not_eq_true', decide_eq_false_iff_not,
            not_le] at this
          rw [haeq] at this
          simpa using this
        have hl₂none : ∀ b ∈ l₂, ¬ (sc < b.2) := by
          intro b hb
          have hrel : descLE a b := by
            have := (List.pairwise_append.mp hsorted).2.2
            have h0 : List.Pairwise (fun x y => descLE x y) (a :: l₂) :=
              (List.pairwise_append.mp hsorted).2.1
            exact List.rel_of_pairwise_cons h0 hb
          simp only [descLE, decide_eq_true_eq] at hrel
          rw [haeq] at hrel
          simpa using not_lt.mpr hrel
        have hcount : countGreater xs sc = l₁.length := by
          unfold countGreater
          have hlen : List.countP (fun e => decide (sc < e.2)) l₁ =
              l₁.length := List.countP_eq_length.mpr hl₁all
          have hzero : List.countP (fun e => decide (sc < e.2)) l₂ = 0 :=
            List.countP_eq_zero.mpr
              (by intro b hb; simpa using hl₂none b hb)
          rw [← hperm₂.countP_eq, List.countP_append, hlen, hzero]
          omega
        rw [hCEB, hCG, hcount]

        omega
      · -- the member sits in the tail
        have hmemxs : (sid, sc) ∈ xs := by
          rcases List.mem_cons.mp hmem with h | h
          · exact absurd (congrArg Prod.fst h.symm) ha
          · exact h
        have hIH := findIdx_sortedDesc xs sid sc hndxs hmemxs
        unfold sortedDesc at hIH
        rw [h₂] at hIH
        have hCG : countGreater (a :: xs) sc =
            (if sc < a.2 then 1 else 0) + countGreater xs sc := by
          unfold countGreater
          rw [List.countP_cons]
          by_cases h : sc < a.2 <;> simp [h] <;> omega
        have hCEB : countEqBefore (a :: xs) sid sc =
            (if a.2 = sc then 1 else 0) + countEqBefore xs sid sc := by
          show (if a.1 = sid then 0
            else (if a.2 = sc then 1 else 0) + countEqBefore xs sid sc) = _
          rw [if_neg ha]
        by_cases hex : ∃ b ∈ l₁, (b.1 == sid) = true
        · -- the member was sorted before the head
          obtain ⟨b, hb, hbs⟩ := hex
          have hbxs : b ∈ xs :=
            hperm₂.mem_iff.mp (List.mem_append.mpr (Or.inl hb))
          have hbeq : b = (sid, sc) := by
            refine eq_of_same_key xs b (sid, sc) hndxs hbxs hmemxs ?_
            simpa using hbs
          have hlt : l₁.findIdx (fun e => e.1 == sid) < l₁.length :=
            List.findIdx_lt_length_of_exists ⟨b, hb, hbs⟩
          rw [List.findIdx_append, if_pos hlt]
          have hIH2 : l₁.findIdx (fun e => e.1 == sid) =
              countGreater xs sc + countEqBefore xs sid sc := by
            rw [← hIH, List.findIdx_append, if_pos hlt]
          have hgt : sc < a.2 ∨ a.2 = sc → False := by
            intro hcase
            have := h₃ b hb
            rw [hbeq] at this
            simp only [descLE, Bool.not_eq_true', decide_eq_false_iff_not,
              not_le] at this
            rcases hcase with h | h
            · exact absurd (lt_trans h this) (lt_irrefl _)
            · rw [h] at this
              exact absurd this (lt_irrefl _)
          have hg0 : (if sc < a.2 then 1 else 0) = 0 := by
            rw [if_neg (fun h => hgt (Or.inl h))]
          have he0 : (if a.2 = sc then 1 else 0) = 0 := by
            rw [if_neg (fun h => hgt (Or.inr h))]
          rw [hCG, hCEB, hg0, he0, hIH2]
          omega
        · -- the member was sorted after the head
          push_neg at hex
          have hl₁false : ∀ b ∈ l₁, (b.1 == sid) = false := by
            intro b hb
            have := hex b hb
            simpa using this
          have he : ∃ e ∈ l₂, (e.1 == sid) = true := by
            have : (sid, sc) ∈ l₁ ++ l₂ := hperm₂.mem_iff.mpr hmemxs
            rcases List.mem_append.mp this with h | h
            · exact absurd (by simp : ((sid, sc).1 == sid) = true)
                (by simpa using hl₁false _ h)
            · exact ⟨(sid, sc), h, by simp⟩
          obtain ⟨e, he₂, hes⟩ := he
          have hexs : e ∈ xs :=
            hperm₂.mem_iff.mp (List.mem_append.mpr (Or.inr he₂))
          have heeq : e = (sid, sc) := by
            refine eq_of_same_key xs e (sid, sc) hndxs hexs hmemxs ?_
            simpa using hes
          have hle : sc ≤ a.2 := by
            have h0 : List.Pairwise (fun x y => descLE x y) (a :: l₂) :=
              (List.pairwise_append.mp hsorted).2.1
            have hrel := List.rel_of_pairwise_cons h0 he₂
            simp only [descLE, decide_eq_true_eq] at hrel
            rw [heeq] at hrel
            exact hrel
          have hfl₁ : l₁.findIdx (fun e => e.1 == sid) = l₁.length :=
            List.findIdx_eq_length_of_false hl₁false
          rw [List.findIdx_append, hfl₁, if_neg (lt_irrefl _),
            List.findIdx_cons]
          rw [show (a.1 == sid) = false from by simpa using ha]
          have hIH2 : l₂.findIdx (fun e => e.1 == sid) + l₁.length =
              countGreater xs sc + countEqBefore xs sid sc := by
            rw [← hIH, List.findIdx_append, hfl₁, if_neg (lt_irrefl _)]
          have hone : (if sc < a.2 then 1 else 0) +
              (if a.2 = sc then 1 else 0) = 1 := by
            rcases lt_or_eq_of_le hle with h | h
            · rw [if_pos h, if_neg (ne_of_gt h)]
            · rw [if_neg (by rw [← h]; exact lt_irrefl sc), if_pos h.symm]
          rw [hCG, hCEB]
          show l₂.findIdx (fun e => e.1 == sid) + 1 + l₁.length = _
          omega

/-- C6: for every waitlist (duplicate-free members, as in the backing
dict) and every member in it, the 1-based position equals 1 + the number
of strictly greater scores + the number of equal scores inserted earlier
(stable ties, highest score first). -/
theorem c6_waitlist_position (s : WaitlistStore) (cid sid : String)
    (sc : ℚ)
    (hnd : ((getWL s cid).map (fun e => e.1)).Nodup)
    (hmem : (sid, sc) ∈ getWL s cid) :
    get_waitlist_position s cid sid =
      some (1 + countGreater (getWL s cid) sc +
        countEqBefore (getWL s cid) sid sc) := by
  unfold get_waitlist_position zrevrank
  have hany : (getWL s cid).any (fun e => e.1 == sid) = true :=
    List.any_eq_true.mpr ⟨(sid, sc), hmem, by simp⟩
  rw [if_pos hany]
  rw [findIdx_sortedDesc (getWL s cid) sid sc hnd hmem]
  show some (countGreater (getWL s cid) sc +
    countEqBefore (getWL s cid) sid sc + 1) = _
  exact congrArg some (by omega)

/-- C6 witness: on the T3 waitlist, S3 sits at position 3: two strictly
greater scores, no earlier equal score. -/
theorem c6_waitlist_position_witness :
    get_waitlist_position t3Store "C" "S3" =
      some (1 + countGreater (getWL t3Store "C") (mkRat 88 100) +
        countEqBefore (getWL t3Store "C") "S3" (mkRat 88 100)) :=
  c6_waitlist_position t3Store "C" "S3" (mkRat 88 100) (by decide)
    (by decide)

end Registration
